import Mathlib

/-!
Verification of the CNN-Doodle-Guesser layer engine (the `NeuralNetwork`
class, its `Tensor4D` abstraction, and the activation / loss registries)
against its natural-language specification.

Shallow embedding conventions:
* JavaScript numbers are modelled by `FV`: a rational (exact) value or one
  of the IEEE special values Infinity, -Infinity, NaN.  Float32 rounding is
  idealised away (arithmetic is exact), but the propagation rules for the
  special values follow IEEE-754 / JavaScript semantics, because several
  spec sentences are about NaN / Infinity handling.
* `Float32Array` buffers are `List FV`; out-of-range reads produce
  `FV.nan` (JavaScript yields `undefined`, which behaves like NaN in all
  arithmetic and comparisons performed by this code).  Out-of-range writes
  are silently dropped, as on a typed array.
* Transcendental scalar functions (exp-based activation bodies, Math.sqrt,
  Math.tanh, the softmax vector function) cannot be written exactly over
  rationals; they are carried as parameters in a `TransFuns` record.  No
  claim depends on their values; concrete witnesses use configurations
  that either avoid them or hit them at exactly representable points.
* Loops become folds / tabulations over `List.range`, preserving the
  iteration order of the source (which matters for NaN/Infinity).
-/

/-- Kernel-reducible rational addition (the library `Rat.add` is marked
irreducible, which would block `decide` on concrete runs); equal to `+`
by `qadd_eq`. -/
def qadd (a b : ℚ) : ℚ := mkRat (a.num * b.den + b.num * a.den) (a.den * b.den)

/-- Kernel-reducible rational subtraction; equal to `-` by `qsub_eq`. -/
def qsub (a b : ℚ) : ℚ := mkRat (a.num * b.den - b.num * a.den) (a.den * b.den)

/-- Kernel-reducible rational multiplication; equal to `*` by `qmul_eq`. -/
def qmul (a b : ℚ) : ℚ := mkRat (a.num * b.num) (a.den * b.den)

/-- Kernel-reducible rational inverse; equal to `Rat.inv` by `qinv_eq`. -/
def qinv (a : ℚ) : ℚ := Rat.divInt a.den a.num

/-- Kernel-reducible rational division; equal to `/` by `qdiv_eq`. -/
def qdiv (a b : ℚ) : ℚ := qmul a (qinv b)

theorem qadd_eq (a b : ℚ) : qadd a b = a + b := (Rat.add_def' a b).symm

theorem qsub_eq (a b : ℚ) : qsub a b = a - b := (Rat.sub_def' a b).symm

theorem qmul_eq (a b : ℚ) : qmul a b = a * b := by
  rw [Rat.mul_def, Rat.normalize_eq_mkRat]
  rfl

theorem qinv_eq (a : ℚ) : qinv a = a⁻¹ := by
  rw [show (a⁻¹ : ℚ) = a.inv from rfl, Rat.inv_def]
  rfl

theorem qdiv_eq (a b : ℚ) : qdiv a b = a / b := by
  rw [div_eq_mul_inv, qdiv, qmul_eq, qinv_eq]

/-- Surrogate for a JavaScript number: an exact rational or one of the
IEEE-754 special values. -/
inductive FV where
  | fin (q : ℚ)
  | inf
  | ninf
  | nan
deriving DecidableEq, Repr

namespace FV

/-- Unary minus. -/
def neg : FV → FV
  | fin q => fin (-q)
  | inf => ninf
  | ninf => inf
  | nan => nan

/-- IEEE addition: NaN absorbs; Infinity + -Infinity is NaN. -/
def add : FV → FV → FV
  | nan, _ => nan
  | _, nan => nan
  | fin q, fin r => fin (qadd q r)
  | fin _, inf => inf
  | fin _, ninf => ninf
  | inf, fin _ => inf
  | ninf, fin _ => ninf
  | inf, inf => inf
  | ninf, ninf => ninf
  | inf, ninf => nan
  | ninf, inf => nan

/-- IEEE subtraction. -/
def sub (a b : FV) : FV := add a (neg b)

/-- IEEE multiplication: NaN absorbs; 0 times an infinity is NaN. -/
def mul : FV → FV → FV
  | nan, _ => nan
  | _, nan => nan
  | fin q, fin r => fin (qmul q r)
  | fin q, inf => if q > 0 then inf else if q < 0 then ninf else nan
  | fin q, ninf => if q > 0 then ninf else if q < 0 then inf else nan
  | inf, fin q => if q > 0 then inf else if q < 0 then ninf else nan
  | ninf, fin q => if q > 0 then ninf else if q < 0 then inf else nan
  | inf, inf => inf
  | ninf, ninf => inf
  | inf, ninf => ninf
  | ninf, inf => ninf

/-- IEEE division (the rational model has a single zero, so the signed-zero
distinction of JavaScript is not represented; no claim exercises it). -/
def div : FV → FV → FV
  | nan, _ => nan
  | _, nan => nan
  | fin q, fin r =>
      if r = 0 then (if q > 0 then inf else if q < 0 then ninf else nan)
      else fin (qdiv q r)
  | fin _, inf => fin 0
  | fin _, ninf => fin 0
  | inf, fin q => if q < 0 then ninf else inf
  | ninf, fin q => if q < 0 then inf else ninf
  | inf, inf => nan
  | inf, ninf => nan
  | ninf, inf => nan
  | ninf, ninf => nan

/-- The strict `>` comparison of JavaScript: any comparison with NaN is
false. -/
def gtB : FV → FV → Bool
  | nan, _ => false
  | _, nan => false
  | fin q, fin r => decide (r < q)
  | fin _, inf => false
  | fin _, ninf => true
  | inf, fin _ => true
  | ninf, fin _ => false
  | inf, inf => false
  | ninf, ninf => false
  | inf, ninf => true
  | ninf, inf => false

/-- The strict `<` comparison of JavaScript. -/
def ltB (a b : FV) : Bool := gtB b a

/-- The `>=` comparison of JavaScript: false on NaN. -/
def geB : FV → FV → Bool
  | nan, _ => false
  | _, nan => false
  | fin q, fin r => decide (r ≤ q)
  | fin _, inf => false
  | fin _, ninf => true
  | inf, _ => true
  | ninf, fin _ => false
  | ninf, ninf => true
  | ninf, inf => false

/-- `Number.isNaN` / the global `isNaN` on numbers. -/
def isNaNb : FV → Bool
  | nan => true
  | _ => false

/-- `Number.isFinite`. -/
def isFiniteb : FV → Bool
  | fin _ => true
  | _ => false

/-- `Math.max` of JavaScript: NaN-propagating. -/
def jsMax (a b : FV) : FV :=
  if isNaNb a || isNaNb b then nan else if gtB a b then a else b

/-- `Math.min` of JavaScript: NaN-propagating. -/
def jsMin (a b : FV) : FV :=
  if isNaNb a || isNaNb b then nan else if ltB a b then a else b

/-- Projection to the rational fragment (junk value 0 on specials; only
used under finiteness hypotheses). -/
def toQ : FV → ℚ
  | fin q => q
  | _ => 0

/-- The value is an exact rational. -/
def Finite (v : FV) : Prop := ∃ q : ℚ, v = fin q

instance : Add FV := ⟨add⟩
instance : Sub FV := ⟨sub⟩
instance : Mul FV := ⟨mul⟩
instance : Neg FV := ⟨neg⟩

theorem add_def (a b : FV) : a + b = add a b := rfl

theorem sub_def (a b : FV) : a - b = sub a b := rfl

theorem mul_def (a b : FV) : a * b = mul a b := rfl

theorem fin_add_fin (q r : ℚ) : (fin q) + (fin r) = fin (q + r) := by
  show add (fin q) (fin r) = fin (q + r)
  simp [add, qadd_eq]

theorem fin_mul_fin (q r : ℚ) : (fin q) * (fin r) = fin (q * r) := by
  show mul (fin q) (fin r) = fin (q * r)
  simp [mul, qmul_eq]

theorem fin_sub_fin (q r : ℚ) : (fin q) - (fin r) = fin (q - r) := by
  show sub (fin q) (fin r) = fin (q - r)
  simp [sub, neg, add, qadd_eq, sub_eq_add_neg]

theorem finite_add {a b : FV} (ha : a.Finite) (hb : b.Finite) :
    (a + b).Finite ∧ (a + b).toQ = a.toQ + b.toQ := by
  obtain ⟨q, rfl⟩ := ha
  obtain ⟨r, rfl⟩ := hb
  rw [fin_add_fin]
  exact ⟨⟨q + r, rfl⟩, rfl⟩

theorem finite_mul {a b : FV} (ha : a.Finite) (hb : b.Finite) :
    (a * b).Finite ∧ (a * b).toQ = a.toQ * b.toQ := by
  obtain ⟨q, rfl⟩ := ha
  obtain ⟨r, rfl⟩ := hb
  rw [fin_mul_fin]
  exact ⟨⟨q * r, rfl⟩, rfl⟩

theorem nan_add (a : FV) : nan + a = nan := by cases a <;> rfl

theorem add_nan (a : FV) : a + nan = nan := by cases a <;> rfl

theorem nan_mul (a : FV) : nan * a = nan := by cases a <;> rfl

theorem mul_nan (a : FV) : a * nan = nan := by cases a <;> rfl

end FV

/-- Decidable equality of `Except` results, so that concrete runs can be
settled by `decide`. -/
instance {ε α : Type} [DecidableEq ε] [DecidableEq α] : DecidableEq (Except ε α) := fun a b =>
  match a, b with
  | .ok x, .ok y =>
      if h : x = y then .isTrue (by rw [h]) else .isFalse (by intro hc; cases hc; exact h rfl)
  | .error x, .error y =>
      if h : x = y then .isTrue (by rw [h]) else .isFalse (by intro hc; cases hc; exact h rfl)
  | .ok _, .error _ => .isFalse (by intro hc; cases hc)
  | .error _, .ok _ => .isFalse (by intro hc; cases hc)

/-- `src/lib/src/utils.ts`: `clip = (v) => (v > 1 ? 1 : v < -1 ? -1 : v)`. -/
def clip (v : FV) : FV :=
  if FV.gtB v (FV.fin 1) then FV.fin 1
  else if FV.ltB v (FV.fin (-1)) then FV.fin (-1) else v

/-- A `Float32Array` is a list of scalars. -/
abbrev Vec := List FV

/-- Reading `v[i]`: out-of-range yields `undefined`, which behaves as NaN
in the arithmetic this code performs on it. -/
def vget (v : Vec) (i : ℕ) : FV := v.getD i FV.nan

/-- `Float32Array.prototype.set(src)` at offset 0: throws when the source
is longer than the target, otherwise overwrites the prefix. -/
def vset (dst src : Vec) : Except String Vec :=
  if dst.length < src.length then .error "offset is out of bounds"
  else .ok (src ++ dst.drop src.length)

/-- Row-major enumeration order of two nested `for` loops. -/
def idx2 (a b : ℕ) : List (ℕ × ℕ) :=
  (List.range a).flatMap fun i => (List.range b).map fun j => (i, j)

/-- Row-major enumeration order of three nested `for` loops. -/
def idx3 (a b c : ℕ) : List (ℕ × ℕ × ℕ) :=
  (List.range a).flatMap fun i => (idx2 b c).map fun p => (i, p.1, p.2)

/-- Row-major enumeration order of four nested `for` loops (the NHWC
iteration used throughout the engine). -/
def idx4 (a b c d : ℕ) : List (ℕ × ℕ × ℕ × ℕ) :=
  (List.range a).flatMap fun i => (idx3 b c d).map fun p => (i, p.1, p.2.1, p.2.2)

/-- `src/lib` Tensor: a 4-dimensional NHWC buffer with row-major strides
`[h*w*c, w*c, c, 1]` (`src/frontend/src/nn/Tensor.ts`). -/
structure Tensor4D where
  n : ℕ
  h : ℕ
  w : ℕ
  c : ℕ
  buf : List FV
deriving DecidableEq, Repr

namespace Tensor4D

/-- Stride of the batch dimension. -/
def sN (t : Tensor4D) : ℕ := t.h * t.w * t.c

/-- Stride of the height dimension. -/
def sH (t : Tensor4D) : ℕ := t.w * t.c

/-- Stride of the width dimension. -/
def sW (t : Tensor4D) : ℕ := t.c

/-- Number of elements `N*H*W*C`. -/
def size (t : Tensor4D) : ℕ := t.n * t.h * t.w * t.c

/-- The private `idx` helper: flat index from strides.  As in the source it
is pure stride arithmetic, never bounds-checked per coordinate. -/
def idx (t : Tensor4D) (a y x d : ℕ) : ℕ := a * t.sN + y * t.sH + x * t.sW + d

/-- `get`: flat read; an out-of-range flat index yields `undefined` (NaN). -/
def get (t : Tensor4D) (a y x d : ℕ) : FV := t.buf.getD (t.idx a y x d) FV.nan

/-- `set`: flat write; an out-of-range flat index is dropped. -/
def set (t : Tensor4D) (a y x d : ℕ) (v : FV) : Tensor4D :=
  { t with buf := t.buf.set (t.idx a y x d) v }

/-- `indexOf`: exposes the flat index (used by pooling argmax masks). -/
def indexOf (t : Tensor4D) (a y x d : ℕ) : ℕ := t.idx a y x d

/-- Flat index for possibly negative (decoded) coordinates, as signed
arithmetic. -/
def idxZ (t : Tensor4D) (a y x d : ℤ) : ℤ :=
  a * (t.sN : ℤ) + y * (t.sH : ℤ) + x * (t.sW : ℤ) + d

/-- `get` at signed coordinates: a negative flat index reads `undefined`. -/
def getZ (t : Tensor4D) (a y x d : ℤ) : FV :=
  if 0 ≤ t.idxZ a y x d then t.buf.getD (t.idxZ a y x d).toNat FV.nan else FV.nan

/-- `set` at signed coordinates: a write through a negative flat index is
dropped by the typed array. -/
def setZ (t : Tensor4D) (a y x d : ℤ) (v : FV) : Tensor4D :=
  if 0 ≤ t.idxZ a y x d then
    { t with buf := t.buf.set (t.idxZ a y x d).toNat v }
  else t

/-- `new Tensor4D(shape)`: zero-filled buffer of the shape product. -/
def zeros (a h w c : ℕ) : Tensor4D := ⟨a, h, w, c, List.replicate (a * h * w * c) (FV.fin 0)⟩

/-- `new Tensor4D(shape, data)`: throws `buffer size mismatch` when the
buffer length is not the shape product (the source then copies the data;
copying is the identity here). -/
def mkChecked (a h w c : ℕ) (data : List FV) : Except String Tensor4D :=
  if data.length ≠ a * h * w * c then .error "buffer size mismatch"
  else .ok ⟨a, h, w, c, data⟩

/-- Tabulated construction used to express loops in which every cell of a
fresh tensor is written exactly once, in row-major order (the orderly
`out.set(n,y,x,c, ...)` loop nests of the engine). -/
def ofFn (a h w c : ℕ) (f : ℕ → ℕ → ℕ → ℕ → FV) : Tensor4D :=
  ⟨a, h, w, c, (idx4 a h w c).map fun p => f p.1 p.2.1 p.2.2.1 p.2.2.2⟩

/-- `pad(top,bottom,left,right)`: zero border, original copied into the
interior (loop of `set` calls in source order). -/
def pad (t : Tensor4D) (pt pb pl pr : ℕ) : Tensor4D :=
  (idx4 t.n t.h t.w t.c).foldl
    (fun acc p => acc.set p.1 (p.2.1 + pt) (p.2.2.1 + pl) p.2.2.2 (t.get p.1 p.2.1 p.2.2.1 p.2.2.2))
    (zeros t.n (t.h + pt + pb) (t.w + pl + pr) t.c)

/-- `flatten()`: one buffer per batch element (`buffer.slice` ranges). -/
def flatten (t : Tensor4D) : List Vec :=
  (List.range t.n).map fun i => ((t.buf.drop (i * t.sN)).take t.sN)

/-- `slice(0, m)` on the tensor delegates to the underlying buffer.
Modelled from the spec: the `src/lib` Tensor source is not in the corpus
(only the older frontend copy is); §4.1 flattening semantics and the
`Float32Array.slice` contract determine this prefix read. -/
def sliceTo (t : Tensor4D) (m : ℕ) : Vec := t.buf.take m

end Tensor4D

/-- Keys of the activation registry.  `softmax` is present as an
identifier: the engine special-cases it by name at the Dense boundary.
The registry module of `src/lib` is not in the corpus (the frontend copy
lacks the `softmax` member); its presence here is modelled from the spec
(§4.2) and from the name checks in the engine. -/
inductive ActivationName where
  | sigmoid
  | tanh
  | relu
  | leakyRelu
  | elu
  | softplus
  | linear
  | softmax
deriving DecidableEq, Repr

/-- Transcendental scalar functions of the source that have no exact
rational counterpart; the whole development is parametric in them.  No
claim below depends on their values. -/
structure TransFuns where
  sigmoidF : FV → FV
  tanhRaw : FV → FV
  eluNeg : FV → FV
  softplusF : FV → FV
  dsoftplusF : FV → FV
  softmaxEntryF : FV → FV
  softmaxEntryDf : FV → FV
  softmaxVec : Vec → Vec
  sqrtF : ℚ → FV

/-- `f(x)` of each registry entry (`activation.ts`).  `tanh` clamps its
argument to ±20 first; `relu` is `Math.max(0, x)`; `leakyRelu` uses
α = 0.01; `elu` uses α = 1.0 with the negative branch transcendental. -/
def actF (tf : TransFuns) : ActivationName → FV → FV
  | .sigmoid => tf.sigmoidF
  | .tanh => fun x =>
      let x1 := if FV.gtB x (FV.fin 20) then FV.fin 20 else x
      let x2 := if FV.ltB x1 (FV.fin (-20)) then FV.fin (-20) else x1
      tf.tanhRaw x2
  | .relu => fun x => FV.jsMax (FV.fin 0) x
  | .leakyRelu => fun x => if FV.gtB x (FV.fin 0) then x else FV.fin (mkRat 1 100) * x
  | .elu => fun x => if FV.geB x (FV.fin 0) then x else tf.eluNeg x
  | .softplus => tf.softplusF
  | .linear => fun x => x
  | .softmax => tf.softmaxEntryF

/-- `df(y)` of each registry entry: by the documented convention the
argument is the activation output `y = f(x)`.  All but `softplus` (and the
opaque softmax entry) are exactly rational. -/
def actDf (tf : TransFuns) : ActivationName → FV → FV
  | .sigmoid => fun y => y * (FV.fin 1 - y)
  | .tanh => fun y => FV.fin 1 - y * y
  | .relu => fun y => if FV.gtB y (FV.fin 0) then FV.fin 1 else FV.fin 0
  | .leakyRelu => fun y => if FV.gtB y (FV.fin 0) then FV.fin 1 else FV.fin (mkRat 1 100)
  | .elu => fun y => if FV.geB y (FV.fin 0) then FV.fin 1 else y + FV.fin 1
  | .softplus => tf.dsoftplusF
  | .linear => fun _ => FV.fin 1
  | .softmax => tf.softmaxEntryDf

/-- Keys (and `name` fields) of the loss registry (`losses.ts`). -/
inductive LossName where
  | mse
  | bce
  | categoricalCrossEntropy
deriving DecidableEq, Repr

/-- `df(ŷ, y)` of the loss registry.  The prediction is passed as an
indexed read because the engine calls `df` with whatever the final layer
produced, cast to `Float32Array` (a `Tensor4D` there reads as
`undefined`, i.e. NaN).  All three gradients are exactly rational:
`mse`/`categoricalCrossEntropy` are `ŷ[i] − y[i]`; `bce` clamps `ŷ[i]`
into `[1e-7, 1 − 1e-7]` and returns `(p − y[i]) / (p (1 − p))`. -/
def lossDf (l : LossName) (yhat : ℕ → FV) (y : Vec) : Vec :=
  match l with
  | .mse => (List.range y.length).map fun i => yhat i - vget y i
  | .bce => (List.range y.length).map fun i =>
      let p := FV.jsMin (FV.jsMax (yhat i) (FV.fin (mkRat 1 10000000))) (FV.fin (mkRat 9999999 10000000))
      FV.div (p - vget y i) (p * (FV.fin 1 - p))
  | .categoricalCrossEntropy => (List.range y.length).map fun i => yhat i - vget y i

/-- Values flowing between layers (`ActivationValue`): a flat vector or a
4D tensor. -/
inductive AV where
  | vec (v : Vec)
  | tensor (t : Tensor4D)
deriving DecidableEq, Repr

/-- Indexed read on an `ActivationValue` used where the engine casts it to
`Float32Array`: numeric indexing of a `Tensor4D` object yields
`undefined` (NaN). -/
def avRead : AV → ℕ → FV
  | .vec v, i => vget v i
  | .tensor _, _ => FV.nan

/-- Declarative padding modes. -/
inductive Padding where
  | valid
  | same
deriving DecidableEq, Repr

/-- `LayerConfig` (`nn.types.ts`): the declarative, input-only records.
Numeric fields are integers (ℤ) to keep JavaScript subtraction
semantics. -/
inductive LayerConfig where
  | input (shape : ℤ × ℤ × ℤ × ℤ)
  | dense (size : ℤ) (activation : Option ActivationName)
  | conv2d (filters : ℤ) (kernel : ℤ × ℤ) (stride : Option (ℤ × ℤ))
      (padding : Option Padding) (activation : Option ActivationName)
  | pool (size : ℤ × ℤ) (stride : Option (ℤ × ℤ))
  | flatten
deriving DecidableEq, Repr

/-- Built Dense layer: row-major `inputSize × outputSize` weights and an
`outputSize` bias. -/
structure DenseData where
  inputSize : ℤ
  outputSize : ℤ
  weights : Vec
  bias : Vec
  activation : Option ActivationName
deriving DecidableEq, Repr

/-- Built Conv2D layer: kernel `[kH,kW,C_in,C_out]`, bias `[C_out]`,
resolved strides and pad offsets, and the declared output shape. -/
structure Conv2DData where
  kernel : Tensor4D
  bias : Vec
  strideH : ℤ
  strideW : ℤ
  padTop : ℤ
  padBottom : ℤ
  padLeft : ℤ
  padRight : ℤ
  outShape : ℤ × ℤ × ℤ × ℤ
  activation : Option ActivationName
deriving DecidableEq, Repr

/-- Built Pool layer. -/
structure PoolData where
  windowH : ℤ
  windowW : ℤ
  strideH : ℤ
  strideW : ℤ
  channels : ℤ
  outShape : ℤ × ℤ × ℤ × ℤ
deriving DecidableEq, Repr

/-- Built `Layer` (tagged variant). -/
inductive Layer where
  | input (shape : ℤ × ℤ × ℤ × ℤ)
  | dense (d : DenseData)
  | conv2d (d : Conv2DData)
  | pool (d : PoolData)
  | flatten (size : ℤ)
deriving DecidableEq, Repr

/-- Dense forward cache: raw input vector and pre-activation values. -/
structure DenseCache where
  input : Vec
  z : Vec
deriving DecidableEq, Repr

/-- Pool forward cache: input tensor, geometry and the argmax flat-index
mask (an `Int32Array`, hence ℤ entries: `bestIdx` starts at −1). -/
structure PoolCache where
  input : Tensor4D
  windowH : ℤ
  windowW : ℤ
  strideH : ℤ
  strideW : ℤ
  outH : ℤ
  outW : ℤ
  mask : List ℤ
deriving DecidableEq, Repr

/-- Conv2D forward cache. -/
structure Conv2DCacheData where
  input : Tensor4D
  padded : Tensor4D
  kernel : Tensor4D
  postAct : Tensor4D
  outH : ℤ
  outW : ℤ
  strideH : ℤ
  strideW : ℤ
  padTop : ℤ
  padLeft : ℤ
deriving DecidableEq, Repr

/-- `LayerCache` (tagged variant of per-pass transient state). -/
inductive LayerCache where
  | input (shape : ℤ × ℤ × ℤ × ℤ)
  | dense (c : DenseCache)
  | flatten (N H W C : ℕ)
  | pool (c : PoolCache)
  | conv2d (c : Conv2DCacheData)
deriving DecidableEq, Repr

/-- The network object: built layers plus learning rate, selected loss and
debug flag. -/
structure NeuralNetwork where
  layers : List Layer
  learningRate : ℚ
  lossName : LossName
  debug : Bool
deriving DecidableEq, Repr

/-- Constructor options (`NeuralNetworkOptions`). -/
structure NeuralNetworkOptions where
  learningRate : Option ℚ
  loss : Option LossName
  debug : Option Bool
deriving Repr

/-- `getOutputSizeOf`: flat size of what a layer emits. -/
def getOutputSizeOf : Layer → ℤ
  | .input (_, h, w, c) => h * w * c
  | .dense d => d.outputSize
  | .flatten size => size
  | .conv2d d => d.outShape.2.1 * d.outShape.2.2.1 * d.outShape.2.2.2
  | .pool d => d.outShape.2.1 * d.outShape.2.2.1 * d.outShape.2.2.2

/-- `getOutputSizeOf` applied to `this.layers[i-1]`, which is `undefined`
for the very first config: JavaScript then crashes with a TypeError. -/
def getOutputSizeOfOpt : Option Layer → Except String ℤ
  | none => .error "TypeError"
  | some l => .ok (getOutputSizeOf l)

/-- `inferOutputShape`: NHWC shape of what a layer emits. -/
def inferOutputShape : Layer → ℤ × ℤ × ℤ × ℤ
  | .input s => s
  | .dense d => (1, 1, 1, d.outputSize)
  | .conv2d d => d.outShape
  | .flatten size => (1, 1, 1, size)
  | .pool d => d.outShape

/-- `inferOutputShape` on a possibly-missing previous layer. -/
def inferOutputShapeOpt : Option Layer → Except String (ℤ × ℤ × ℤ × ℤ)
  | none => .error "TypeError"
  | some l => .ok (inferOutputShape l)

/-- `buildDenseLayer`: Xavier-style init
`weights[i] = (Math.random() − 0.5) · sqrt(2/(inputSize+outputSize))`,
`bias[i] = (Math.random() − 0.5) · 0.1`.  `rand` is the Math.random
stream, `k` the number of samples consumed so far; the call returns the
layer together with the advanced counter. -/
def buildDenseLayer (tf : TransFuns) (rand : ℕ → ℚ) (k : ℕ)
    (size : ℤ) (activation : Option ActivationName) (inputSize : ℤ) : Layer × ℕ :=
  let outputSize := size
  let wlen := (inputSize * outputSize).toNat
  let blen := outputSize.toNat
  let scale := tf.sqrtF (qdiv 2 (Rat.ofInt (inputSize + outputSize)))
  let weights : Vec := (List.range wlen).map fun i =>
    (FV.fin (rand (k + i)) - FV.fin (mkRat 1 2)) * scale
  let bias : Vec := (List.range blen).map fun i =>
    (FV.fin (rand (k + wlen + i)) - FV.fin (mkRat 1 2)) * FV.fin (mkRat 1 10)
  (.dense ⟨inputSize, outputSize, weights, bias, activation⟩, k + wlen + blen)

/-- `buildConv2DLayer`: resolves strides (default 1), pad offsets
(`valid`/absent ⇒ 0; `same` ⇒ `max(0,(in−1)·stride+kernel−in)` split with
the odd remainder on bottom/right), declares
`out = ⌊(in+padTotal−kernel)/stride⌋+1`, zero bias, kernel entries
`(Math.random()−0.5)·0.1` (per-element init; the `src/lib` `setEach`
member is absent from the corpus and is modelled as filling the buffer in
order). -/
def buildConv2DLayer (rand : ℕ → ℚ) (k : ℕ)
    (filters : ℤ) (kernelSize : ℤ × ℤ) (stride : Option (ℤ × ℤ))
    (padding : Option Padding) (activation : Option ActivationName)
    (prevShape : ℤ × ℤ × ℤ × ℤ) : Layer × ℕ :=
  let (N, H_in, W_in, C_in) := prevShape
  let (kH, kW) := kernelSize
  let C_out := filters
  let strideH := (stride.map Prod.fst).getD 1
  let strideW := (stride.map Prod.snd).getD 1
  let padH : ℤ := if padding = some .same then max 0 ((H_in - 1) * strideH + kH - H_in) else 0
  let padW : ℤ := if padding = some .same then max 0 ((W_in - 1) * strideW + kW - W_in) else 0
  let padTop := if padding = some .same then padH.fdiv 2 else 0
  let padBottom := if padding = some .same then padH - padTop else 0
  let padLeft := if padding = some .same then padW.fdiv 2 else 0
  let padRight := if padding = some .same then padW - padLeft else 0
  let H_out := (H_in + padTop + padBottom - kH).fdiv strideH + 1
  let W_out := (W_in + padLeft + padRight - kW).fdiv strideW + 1
  let ksize := kH.toNat * kW.toNat * C_in.toNat * C_out.toNat
  let kernel : Tensor4D :=
    ⟨kH.toNat, kW.toNat, C_in.toNat, C_out.toNat,
      (List.range ksize).map fun i => (FV.fin (rand (k + i)) - FV.fin (mkRat 1 2)) * FV.fin (mkRat 1 10)⟩
  let bias : Vec := List.replicate C_out.toNat (FV.fin 0)
  (.conv2d ⟨kernel, bias, strideH, strideW, padTop, padBottom, padLeft, padRight,
    (N, H_out, W_out, C_out), activation⟩, k + ksize)

/-- `buildPoolLayer`: stride defaults to the window size; output size via
the floor formula, no padding. -/
def buildPoolLayer (size : ℤ × ℤ) (stride : Option (ℤ × ℤ))
    (prevShape : ℤ × ℤ × ℤ × ℤ) : Layer :=
  let (N, H, W, C) := prevShape
  let windowH := size.1
  let windowW := size.2
  let strideH := (stride.map Prod.fst).getD windowH
  let strideW := (stride.map Prod.snd).getD windowW
  let outH := (H - windowH).fdiv strideH + 1
  let outW := (W - windowW).fdiv strideW + 1
  .pool ⟨windowH, windowW, strideH, strideW, C, (N, outH, outW, C)⟩

/-- One arm of the constructor `switch`, given the previously built layer
(`this.layers[i-1]`). -/
def buildOne (tf : TransFuns) (rand : ℕ → ℚ) (prev : Option Layer) (k : ℕ) :
    LayerConfig → Except String (Layer × ℕ)
  | .input shape => .ok (.input shape, k)
  | .dense size act => do
      let inputSize ← getOutputSizeOfOpt prev
      .ok (buildDenseLayer tf rand k size act inputSize)
  | .conv2d filters kernel stride padding act =>
      match prev with
      | none => .error "Conv2D must follow an input/conv/pool"
      | some (.dense _) => .error "Conv2D must follow an input/conv/pool"
      | some (.flatten _) => .error "Conv2D must follow an input/conv/pool"
      | some p => .ok (buildConv2DLayer rand k filters kernel stride padding act (inferOutputShape p))
  | .flatten => do
      let size ← getOutputSizeOfOpt prev
      .ok (.flatten size, k)
  | .pool size stride => do
      let sh ← inferOutputShapeOpt prev
      .ok (buildPoolLayer size stride sh, k)

/-- The constructor loop over the config list. -/
def buildLayers (tf : TransFuns) (rand : ℕ → ℚ) :
    Option Layer → ℕ → List LayerConfig → Except String (List Layer)
  | _, _, [] => .ok []
  | prev, k, cfg :: rest => do
      let (layer, k2) ← buildOne tf rand prev k cfg
      let tail ← buildLayers tf rand (some layer) k2 rest
      .ok (layer :: tail)

/-- `new NeuralNetwork(configs, opts)`: at least two layers required;
defaults `learningRate = 0.1`, `loss = mse`, `debug = false`. -/
def mkNN (tf : TransFuns) (rand : ℕ → ℚ) (configs : List LayerConfig)
    (opts : NeuralNetworkOptions) : Except String NeuralNetwork :=
  if configs.length < 2 then
    .error "NeuralNetwork requires at least input and output layers."
  else do
    let layers ← buildLayers tf rand none 0 configs
    .ok ⟨layers, opts.learningRate.getD (mkRat 1 10), opts.loss.getD .mse, opts.debug.getD false⟩

/-- Dense forward (`denseForward`): an NHWC tensor is first flattened to
its first batch element; computes `z = W·x + b`; applies softmax (by
name) or the registry activation elementwise; caches `x` and `z`.
`debug` adds NaN checks on `out` and `z`. -/
def denseForward (tf : TransFuns) (debug : Bool) (current : AV) (d : DenseData) :
    Except String (AV × LayerCache × Layer) := do
  let x : Vec ←
    match current with
    | .tensor t =>
        if t.n = 0 then .error "Dense layer expects a Float32Array input"
        else .ok ((t.buf.drop 0).take t.sN)
    | .vec v => .ok v
  let nIn := d.inputSize.toNat
  let nOut := d.outputSize.toNat
  let z : Vec := (List.range nOut).map fun i =>
    (List.range nIn).foldl
      (fun sum j => sum + vget d.weights (i * nIn + j) * vget x j)
      (vget d.bias i)
  let out : Vec :=
    if d.activation = some .softmax then tf.softmaxVec z
    else z.map fun v =>
      match d.activation with
      | some a => actF tf a v
      | none => v
  if debug ∧ out.any FV.isNaNb then
    .error "NaN detected in denseForward output"
  else if debug ∧ z.any FV.isNaNb then
    .error "NaN detected in denseForward z"
  else
    .ok (.vec out, .dense ⟨x, z⟩, .dense d)

/-- Conv2D forward (`conv2DForward`): pads per the precomputed offsets,
then for every (batch, output row, output col, output channel)
accumulates `bias[f] + Σ padded[n, oy·sH+ky, ox·sW+kx, c]·kernel[ky,kx,c,f]`
over the kernel volume (loop order ky, kx, c), applies the activation,
and caches un-padded input, padded input, kernel, geometry and the
post-activation output. -/
def conv2DForward (tf : TransFuns) (current : AV) (d : Conv2DData) :
    Except String (AV × LayerCache × Layer) := do
  match current with
  | .vec _ => .error "Conv2D expects Tensor4D input"
  | .tensor t =>
    let padded := t.pad d.padTop.toNat d.padBottom.toNat d.padLeft.toNat d.padRight.toNat
    let (N, outH, outW, C_out) := d.outShape
    let k := d.kernel
    let kH := k.n
    let kW := k.h
    let C_in := k.w
    let out : Tensor4D :=
      Tensor4D.ofFn N.toNat outH.toNat outW.toNat C_out.toNat fun nn oy ox f =>
        let sum := (idx3 kH kW C_in).foldl
          (fun s p =>
            s + padded.getZ (nn : ℤ) ((oy : ℤ) * d.strideH + p.1) ((ox : ℤ) * d.strideW + p.2.1) (p.2.2 : ℤ)
              * k.get p.1 p.2.1 p.2.2 f)
          (vget d.bias f)
        match d.activation with
        | some a => actF tf a sum
        | none => sum
    .ok (.tensor out,
      .conv2d ⟨t, padded, d.kernel, out, outH, outW, d.strideH, d.strideW, d.padTop, d.padLeft⟩,
      .conv2d d)

/-- The argmax scan over one pooling window: starts from
`best = -Infinity, bestIdx = -1`; a strictly greater value updates both
(`v > best` is false for NaN, so NaN never wins). -/
def poolArgmax (t : Tensor4D) (nn : ℕ) (baseY baseX : ℤ) (wH wW : ℕ) (c : ℕ) : FV × ℤ :=
  (idx2 wH wW).foldl
    (fun st p =>
      let iy := baseY + (p.1 : ℤ)
      let ix := baseX + (p.2 : ℤ)
      let v := t.getZ (nn : ℤ) iy ix (c : ℤ)
      if FV.gtB v st.1 then (v, t.idxZ (nn : ℤ) iy ix (c : ℤ)) else st)
    (FV.ninf, -1)

/-- Pool forward (`poolForward`): max-pooling with an `Int32Array` mask
recording the flat source index of each maximum, in output row-major
order. -/
def poolForward (current : AV) (d : PoolData) :
    Except String (AV × LayerCache × Layer) := do
  match current with
  | .vec _ => .error "Pool layer expects a Tensor4D input"
  | .tensor t =>
    let N := t.n
    let C := t.c
    let outH := d.outShape.2.1
    let outW := d.outShape.2.2.1
    let st := (idx4 N outH.toNat outW.toNat C).foldl
      (fun st p =>
        let (nn, oy, ox, c) := p
        let baseY := (oy : ℤ) * d.strideH
        let baseX := (ox : ℤ) * d.strideW
        let (best, bestIdx) := poolArgmax t nn baseY baseX d.windowH.toNat d.windowW.toNat c
        (st.1.set nn oy ox c best, st.2 ++ [bestIdx]))
      (Tensor4D.zeros N outH.toNat outW.toNat C, ([] : List ℤ))
    .ok (.tensor st.1,
      .pool ⟨t, d.windowH, d.windowW, d.strideH, d.strideW, outH, outW, st.2⟩,
      .pool d)

/-- Flatten forward (`flattenForward`): requires batch size exactly 1
(the cache is built first, then the check throws), and returns the
`H·W·C` prefix of the buffer. -/
def flattenForward (current : AV) (size : ℤ) :
    Except String (AV × LayerCache × Layer) := do
  match current with
  | .vec _ => .error "Flatten expects a Tensor4D"
  | .tensor t =>
    if t.n ≠ 1 then .error "Flatten only supports a batch size of 1"
    else .ok (.vec (t.sliceTo (t.h * t.w * t.c)), .flatten t.n t.h t.w t.c, .flatten size)

/-- `forwardLayer` dispatch.  Each arm also returns the layer as the step
leaves it: no forward arm writes to any parameter, so every arm returns
its layer unchanged (the frame property of claim C10). -/
def forwardLayer (tf : TransFuns) (debug : Bool) (layer : Layer) (input : AV) :
    Except String (AV × LayerCache × Layer) :=
  match layer with
  | .input shape => .ok (input, .input shape, .input shape)
  | .conv2d d => conv2DForward tf input d
  | .pool d => poolForward input d
  | .flatten size => flattenForward input size
  | .dense d => denseForward tf debug input d

/-- One context entry of the forward pass. -/
structure CtxEntry where
  layer : Layer
  out : AV
  cache : LayerCache
deriving DecidableEq, Repr

/-- One iteration of the forward loop: run the layer on the current
value and push the `(layer, out, cache)` triple. -/
def forwardStep (tf : TransFuns) (debug : Bool) (st : List CtxEntry × AV) (layer : Layer) :
    Except String (List CtxEntry × AV) := do
  let (out, cache, layer2) ← forwardLayer tf debug layer st.2
  pure (st.1 ++ [⟨layer2, out, cache⟩], out)

/-- `forwardPass`: threads the value through every layer in order,
collecting `(layer, out, cache)` triples. -/
def forwardPass (tf : TransFuns) (net : NeuralNetwork) (input : AV) :
    Except String (List CtxEntry) := do
  let st ← net.layers.foldlM (forwardStep tf net.debug) (([] : List CtxEntry), input)
  pure st.1

/-- `guess(inputs)`: the final context entry's output (an empty layer
list would crash reading into an empty context array). -/
def guess (tf : TransFuns) (net : NeuralNetwork) (input : AV) : Except String AV := do
  let ctx ← forwardPass tf net input
  match ctx.getLast? with
  | none => .error "TypeError"
  | some e => .ok e.out

/-- The softmax/cross-entropy shortcut test of the engine:
`layer.activation?.name === "softmax" && lossFn?.name === "categoricalCrossEntropy"`. -/
def denseIsOutputSoftmax (lossName : LossName) (d : DenseData) : Bool :=
  d.activation = some .softmax && lossName = .categoricalCrossEntropy

/-- `dZ` of the Dense backward step: the softmax shortcut clips the
incoming gradient directly; otherwise `dZ[i] = clip(dOut[i] · f.df(z[i]))`
where `z` is the cached pre-activation vector (`dz = f ? f.df(z[i]) : 1`). -/
def denseGradDZ (tf : TransFuns) (lossName : LossName) (d : DenseData)
    (z dOutv : Vec) : Vec :=
  let nOut := d.outputSize.toNat
  if denseIsOutputSoftmax lossName d then
    (List.range nOut).map fun i => clip (vget dOutv i)
  else
    (List.range nOut).map fun i =>
      let dz := match d.activation with
        | some f => actDf tf f (vget z i)
        | none => FV.fin 1
      clip (vget dOutv i * dz)

/-- `dW[i·inSize+j] = dZ[i] · x[j]` (row-major, not clipped). -/
def denseGradDW (dZ x : Vec) (nIn nOut : ℕ) : Vec :=
  (List.range (nIn * nOut)).map fun m => vget dZ (m / nIn) * vget x (m % nIn)

/-- `dB[i] = clip(dZ[i])`. -/
def denseGradDB (dZ : Vec) (nOut : ℕ) : Vec :=
  (List.range nOut).map fun i => clip (vget dZ i)

/-- `dX[j] = clip(Σ_i W[i·inSize+j] · dZ[i])`. -/
def denseGradDX (W dZ : Vec) (nIn nOut : ℕ) : Vec :=
  (List.range nIn).map fun j =>
    clip ((List.range nOut).foldl
      (fun s i => s + vget W (i * nIn + j) * vget dZ i) (FV.fin 0))

/-- In-place `B[i] -= lr · dB[i]`. -/
def denseUpdateBias (lr : ℚ) (B dB : Vec) (nOut : ℕ) : Vec :=
  (List.range nOut).foldl
    (fun b i => b.set i (vget b i - FV.fin lr * vget dB i)) B

/-- In-place `W[i·inSize+j] -= lr · dW[i·inSize+j]`. -/
def denseUpdateWeights (lr : ℚ) (W dW : Vec) (nIn nOut : ℕ) : Vec :=
  (idx2 nOut nIn).foldl
    (fun w p =>
      w.set (p.1 * nIn + p.2) (vget w (p.1 * nIn + p.2) - FV.fin lr * vget dW (p.1 * nIn + p.2)))
    W

/-- Dense backward (`denseBackward`): cache/type checks, `dZ`, the debug
NaN guards, gradients `dW`/`dB`/`dX`, and the in-place SGD update. -/
def denseBackward (tf : TransFuns) (debug : Bool) (lr : ℚ) (lossName : LossName)
    (dOut : AV) (d : DenseData) (cache : LayerCache) : Except String (AV × Layer) :=
  match cache with
  | .dense c =>
    match dOut with
    | .tensor _ => .error "denseBackward expects Float32Array gradient"
    | .vec dOutv =>
      let x := c.input
      let z := c.z
      let nIn := d.inputSize.toNat
      let nOut := d.outputSize.toNat
      let dZ := denseGradDZ tf lossName d z dOutv
      if debug && !(FV.isFiniteb (vget dZ 0)) then .error "NaN in dZ"
      else if debug && ((List.range nOut).any fun i => !(FV.isFiniteb (vget dZ i))) then
        .error "NaN in dZ source"
      else if debug && ((List.range nIn).any fun j => !(FV.isFiniteb (vget x j))) then
        .error "NaN in x source"
      else
        let dW := denseGradDW dZ x nIn nOut
        let dB := denseGradDB dZ nOut
        let dX := denseGradDX d.weights dZ nIn nOut
        if debug && (!(FV.isFiniteb (vget dX 0)) || dX.any fun v => !(FV.isFiniteb v)) then
          .error "NaN in dX"
        else
          let B2 := denseUpdateBias lr d.bias dB nOut
          let W2 := denseUpdateWeights lr d.weights dW nIn nOut
          .ok (.vec dX, .dense { d with weights := W2, bias := B2 })
  | _ => .error "densebackward cache type mismatch"

/-- Flatten backward (`flattenBackward`): reshapes the incoming vector
gradient back into the cached 4D shape (row-major counter). -/
def flattenBackward (dOut : AV) (cache : LayerCache) : Except String AV :=
  match dOut with
  | .tensor _ => .error "flattenBackward expects Float32Array gradient"
  | .vec v =>
    match cache with
    | .flatten N H W C =>
        .ok (.tensor (Tensor4D.ofFn N H W C fun a y x c =>
          vget v (a * (H * W * C) + y * (W * C) + x * C + c)))
    | _ => .error "flattenbackward cache type mismatch"

/-- `dZ = dOut ⊙ f.df(postAct)` of the Conv2D backward step: here `df` is
applied to the cached post-activation output. -/
def conv2DGradDZ (tf : TransFuns) (act : Option ActivationName)
    (dOutT postAct : Tensor4D) (N outH outW C_out : ℕ) : Tensor4D :=
  (idx4 N outH outW C_out).foldl
    (fun dZ p =>
      let (nn, oy, ox, f) := p
      let g := dOutT.get nn oy ox f
      let a := postAct.get nn oy ox f
      dZ.set nn oy ox f (match act with | some fn => g * actDf tf fn a | none => g))
    (Tensor4D.zeros dOutT.n dOutT.h dOutT.w dOutT.c)

/-- Accumulated Conv2D gradients. -/
structure ConvGrads where
  dKernel : Tensor4D
  dBias : Vec
  dPad : Tensor4D
deriving Repr

/-- The Conv2D gradient accumulation loops: over every (batch, output
row, output col, output channel), add `grad` into `dBias[f]`, and over
the kernel volume accumulate `dKernel += padded·grad` and
`dPad += kernel·grad`. -/
def conv2DGradParts (dZ padded kernel : Tensor4D) (strideH strideW : ℤ)
    (N outH outW : ℕ) : ConvGrads :=
  let kH := kernel.n
  let kW := kernel.h
  let C_in := kernel.w
  let C_out := kernel.c
  let H := padded.h
  let W := padded.w
  (idx4 N outH outW C_out).foldl
    (fun st p =>
      let (nn, oy, ox, f) := p
      let iyBase := (oy : ℤ) * strideH
      let ixBase := (ox : ℤ) * strideW
      let grad := dZ.get nn oy ox f
      let st := { st with dBias := st.dBias.set f (vget st.dBias f + grad) }
      (idx3 kH kW C_in).foldl
        (fun st2 q =>
          let (ky, kx, c) := q
          let iy := iyBase + (ky : ℤ)
          let ix := ixBase + (kx : ℤ)
          let dkOld := st2.dKernel.get ky kx c f
          let st2 := { st2 with
            dKernel := st2.dKernel.set ky kx c f (dkOld + padded.getZ (nn : ℤ) iy ix (c : ℤ) * grad) }
          let dpOld := st2.dPad.getZ (nn : ℤ) iy ix (c : ℤ)
          { st2 with dPad := st2.dPad.setZ (nn : ℤ) iy ix (c : ℤ) (dpOld + kernel.get ky kx c f * grad) })
        st)
    ⟨Tensor4D.zeros kH kW C_in C_out, List.replicate C_out (FV.fin 0), Tensor4D.zeros N H W C_in⟩

/-- Conv2D backward (`conv2DBackward`): type/cache checks, `dZ`, gradient
accumulation, crop of `dPad` back to the un-padded region, and the
in-place SGD updates of bias and kernel. -/
def conv2DBackward (tf : TransFuns) (lr : ℚ) (dOut : AV) (d : Conv2DData)
    (cache : LayerCache) : Except String (AV × Layer) :=
  match dOut with
  | .vec _ => .error "conv2DBackward expects Tensor4D"
  | .tensor dOutT =>
    match cache with
    | .conv2d c =>
      let N := c.input.n
      let kernel := c.kernel
      let kH := kernel.n
      let kW := kernel.h
      let C_in := kernel.w
      let C_out := kernel.c
      let dZ := conv2DGradDZ tf d.activation dOutT c.postAct N c.outH.toNat c.outW.toNat C_out
      let grads := conv2DGradParts dZ c.padded kernel c.strideH c.strideW N c.outH.toNat c.outW.toNat
      let dInput := Tensor4D.ofFn c.input.n c.input.h c.input.w C_in fun nn y x ch =>
        grads.dPad.getZ (nn : ℤ) ((y : ℤ) + c.padTop) ((x : ℤ) + c.padLeft) (ch : ℤ)
      let bias2 := (List.range C_out).foldl
        (fun b f => b.set f (vget b f - FV.fin lr * vget grads.dBias f)) d.bias
      let kernel2 := (idx4 kH kW C_in C_out).foldl
        (fun k p =>
          k.set p.1 p.2.1 p.2.2.1 p.2.2.2
            (k.get p.1 p.2.1 p.2.2.1 p.2.2.2 - FV.fin lr * grads.dKernel.get p.1 p.2.1 p.2.2.1 p.2.2.2))
        kernel
      .ok (.tensor dInput, .conv2d { d with kernel := kernel2, bias := bias2 })
    | _ => .error "conv2DBackward cache mismatch"

/-- Decoding of a flat stride-encoded mask index in `poolBackward`:
`(idx / s) | 0` is truncating division, `%` the JavaScript remainder. -/
def poolDecode (sN sH sW : ℕ) (idx : ℤ) : ℤ × ℤ × ℤ × ℤ :=
  let nn := idx.tdiv (sN : ℤ)
  let rem1 := idx.tmod (sN : ℤ)
  let yy := rem1.tdiv (sH : ℤ)
  let rem2 := rem1.tmod (sH : ℤ)
  let xx := rem2.tdiv (sW : ℤ)
  let cc := rem2.tmod (sW : ℤ)
  (nn, yy, xx, cc)

/-- Pool backward (`poolBackward`): scatters each output gradient onto
the decoded argmax position, accumulating (`+=`) into a zero tensor.  A
missing mask entry decodes through `undefined` to a NaN flat index whose
write is dropped. -/
def poolBackward (dOut : AV) (cache : LayerCache) : Except String AV :=
  match dOut with
  | .vec _ => .error "poolBackward expects Tensor4D"
  | .tensor dOutT =>
    match cache with
    | .pool c =>
      let N := c.input.n
      let H := c.input.h
      let W := c.input.w
      let C := c.input.c
      let sN := c.input.sN
      let sH := c.input.sH
      let sW := c.input.sW
      let st := (idx4 N c.outH.toNat c.outW.toNat C).foldl
        (fun (st : Tensor4D × ℕ) p =>
          let (nn, oy, ox, ch) := p
          let grad := dOutT.get nn oy ox ch
          match c.mask.get? st.2 with
          | some idx =>
            let (a, y, x, cc) := poolDecode sN sH sW idx
            let prev := st.1.getZ a y x cc
            (st.1.setZ a y x cc (prev + grad), st.2 + 1)
          | none => (st.1, st.2 + 1))
        (Tensor4D.zeros N H W C, 0)
      .ok (.tensor st.1)
    | _ => .error "poolBackward cache mismatch"

/-- `backwardLayer` dispatch; parameterless layers come back unchanged. -/
def backwardLayer (tf : TransFuns) (debug : Bool) (lr : ℚ) (lossName : LossName)
    (layer : Layer) (dOut : AV) (cache : LayerCache) : Except String (AV × Layer) :=
  match layer with
  | .input _ => .ok (dOut, layer)
  | .conv2d d => conv2DBackward tf lr dOut d cache
  | .pool _ => do
      let g ← poolBackward dOut cache
      .ok (g, layer)
  | .flatten _ => do
      let g ← flattenBackward dOut cache
      .ok (g, layer)
  | .dense d => denseBackward tf debug lr lossName dOut d cache

/-- The NaN guard applied to each gradient returned during the backward
loop: only `Float32Array` gradients are inspected; without debug mode
only `some(isNaN)` fires (`Infinity` passes), with debug mode
additionally a non-finite element 0 fires. -/
def nanGuardFires (debug : Bool) (dOut : AV) : Bool :=
  match dOut with
  | .vec v => (debug && !(FV.isFiniteb (vget v 0))) || v.any FV.isNaNb
  | .tensor _ => false

/-- The seed gradient of `train`: the softmax + categorical-cross-entropy
combination on a Dense output layer yields `prediction − target`
componentwise; every other case calls the loss registry `df`.  (When the
output is not a `Float32Array` the cast makes `out.length` undefined and
the shortcut produces an empty buffer; that combination cannot occur for
a Dense output layer.) -/
def trainSeed (lossName : LossName) (outputLayer : Layer) (output : AV) (target : Vec) : Vec :=
  match outputLayer with
  | .dense d =>
    if denseIsOutputSoftmax lossName d then
      match output with
      | .vec out => (List.range out.length).map fun i => vget out i - vget target i
      | .tensor _ => []
    else lossDf lossName (avRead output) target
  | _ => lossDf lossName (avRead output) target

/-- One iteration of the backward loop of `train`: run the layer's
backward step on the current gradient, then apply the NaN guard to the
returned gradient. -/
def trainBackStep (tf : TransFuns) (debug : Bool) (lr : ℚ) (lossName : LossName)
    (st : AV × List Layer) (e : CtxEntry) : Except String (AV × List Layer) := do
  let (dOut2, layer2) ← backwardLayer tf debug lr lossName e.layer st.1 e.cache
  if nanGuardFires debug dOut2 then
    .error "NaN detected in backward pass"
  else
    pure (dOut2, layer2 :: st.2)

/-- `train(input, target)`: forward pass, seed gradient, then the
backward loop from the last context entry to the first, applying the NaN
guard to each returned gradient; parameters are updated in place (the
returned network carries the updated layers).  The debug diagnostics
block only logs and is not modelled. -/
def train (tf : TransFuns) (net : NeuralNetwork) (input : AV) (target : Vec) :
    Except String NeuralNetwork := do
  let ctx ← forwardPass tf net input
  match ctx.getLast? with
  | none => .error "TypeError"
  | some last =>
    let dOut0 : AV := .vec (trainSeed net.lossName last.layer last.out target)
    let st ← ctx.reverse.foldlM
      (trainBackStep tf net.debug net.learningRate net.lossName)
      (dOut0, ([] : List Layer))
    .ok { net with layers := st.2 }

/-- `LayerSerialized` (`nn.types.ts`): the checkpoint wire format. -/
inductive LayerSerialized where
  | input (shape : ℤ × ℤ × ℤ × ℤ)
  | flatten (size : ℤ)
  | pool (windowH windowW strideH strideW : ℤ) (outShape : ℤ × ℤ × ℤ × ℤ) (channels : ℤ)
  | dense (inputSize outputSize : ℤ) (activation : Option ActivationName) (weights bias : Vec)
  | conv2d (strideH strideW padTop padBottom padLeft padRight : ℤ)
      (activation : Option ActivationName) (kernel : Vec) (kernelShape : ℕ × ℕ × ℕ × ℕ)
      (bias : Vec) (outShape : ℤ × ℤ × ℤ × ℤ)
deriving DecidableEq, Repr

/-- `serializeLayer`: captures shapes, activation identifiers by name and
flattened parameter buffers. -/
def serializeLayer : Layer → LayerSerialized
  | .input shape => .input shape
  | .flatten size => .flatten size
  | .pool d => .pool d.windowH d.windowW d.strideH d.strideW d.outShape d.channels
  | .dense d => .dense d.inputSize d.outputSize d.activation d.weights d.bias
  | .conv2d d => .conv2d d.strideH d.strideW d.padTop d.padBottom d.padLeft d.padRight
      d.activation d.kernel.buf (d.kernel.n, d.kernel.h, d.kernel.w, d.kernel.c) d.bias d.outShape

/-- The checkpoint record. -/
structure NNCheckpoint where
  learningRate : ℚ
  layers : List LayerSerialized
deriving Repr

/-- `checkpoint()`. -/
def checkpoint (net : NeuralNetwork) : NNCheckpoint :=
  ⟨net.learningRate, net.layers.map serializeLayer⟩

/-- The per-record configuration rebuilt by `fromCheckpoint`: note the
Conv2D arm hard-codes `padding: "valid"`. -/
def rebuildConfig : LayerSerialized → LayerConfig
  | .input shape => .input shape
  | .flatten _ => .flatten
  | .pool wh ww sh sw _ _ => .pool (wh, ww) (some (sh, sw))
  | .dense _ out act _ _ => .dense out act
  | .conv2d sh sw _ _ _ _ act _ kshape _ outShape =>
      .conv2d outShape.2.2.2 ((kshape.1 : ℤ), (kshape.2.1 : ℤ)) (some (sh, sw)) (some .valid) act

/-- Weight/bias injection of `fromCheckpoint` for one layer pair:
`Float32Array.set` for dense parameters and conv bias, a fresh checked
`Tensor4D` for the conv kernel; any other pairing is skipped. -/
def injectOne : Layer → LayerSerialized → Except String Layer
  | .dense d, .dense _ _ _ wsrc bsrc => do
      let w2 ← vset d.weights wsrc
      let b2 ← vset d.bias bsrc
      .ok (.dense { d with weights := w2, bias := b2 })
  | .conv2d d, .conv2d _ _ _ _ _ _ _ ksrc kshape bsrc _ => do
      let k2 ← Tensor4D.mkChecked kshape.1 kshape.2.1 kshape.2.2.1 kshape.2.2.2 ksrc
      let b2 ← vset d.bias bsrc
      .ok (.conv2d { d with kernel := k2, bias := b2 })
  | l, _ => .ok l

/-- The injection loop of `fromCheckpoint` (reading past the end of the
serialized list crashes on `undefined.type`). -/
def injectAll : List Layer → List LayerSerialized → Except String (List Layer)
  | [], _ => .ok []
  | _ :: _, [] => .error "TypeError"
  | l :: ls, s :: ss => do
      let l2 ← injectOne l s
      let rest ← injectAll ls ss
      .ok (l2 :: rest)

/-- `NeuralNetwork.fromCheckpoint`: rebuild configurations from the
record, construct a fresh network (only the learning rate is carried
over: loss and debug fall back to their defaults), then overwrite the
fresh parameters with the checkpointed values. -/
def fromCheckpoint (tf : TransFuns) (rand : ℕ → ℚ) (ckpt : NNCheckpoint) :
    Except String NeuralNetwork := do
  let rebuild := ckpt.layers.map rebuildConfig
  let nn ← mkNN tf rand rebuild ⟨some ckpt.learningRate, none, none⟩
  let layers2 ← injectAll nn.layers ckpt.layers
  .ok { nn with layers := layers2 }

/-- Exact rational square root where one exists (0 otherwise): used to
give the `Math.sqrt` parameter a concrete value that agrees with
JavaScript exactly on the perfect squares exercised by the concrete
networks below. -/
def exactSqrt (n : ℕ) : Option ℕ := (List.range (n + 1)).find? (fun s => s * s == n)

def ratSqrt (q : ℚ) : ℚ :=
  match exactSqrt q.num.toNat, exactSqrt q.den with
  | some sa, some sb => mkRat sa sb
  | _, _ => 0

/-- A concrete instantiation of the transcendental parameters, for closed
witnesses and counterexamples.  The genuinely transcendental members are
placeholders that no concrete computation below ever reaches (those
networks use only absent/relu-family activations); `sqrtF` is exact on
the perfect squares that are reached. -/
def TFq : TransFuns :=
  ⟨fun _ => FV.nan, fun _ => FV.nan, fun _ => FV.nan, fun _ => FV.nan,
   fun _ => FV.nan, fun _ => FV.nan, fun _ => FV.nan, fun v => v,
   fun q => FV.fin (ratSqrt q)⟩

/-- The constant-zero Math.random stream (for deterministic concrete
networks: every stream value is a legitimate `Math.random` outcome up to
the idealisation of exact arithmetic). -/
def rand0 : ℕ → ℚ := fun _ => 0

/-- Projection to the Conv2D payload of a built layer. -/
def Layer.conv2dData : Layer → Option Conv2DData
  | .conv2d d => some d
  | _ => none

/-- Projection to the Dense payload of a built layer. -/
def Layer.denseData : Layer → Option DenseData
  | .dense d => some d
  | _ => none

/-- Reading an element of a tabulated buffer. -/
theorem vget_range_map (f : ℕ → FV) (n m : ℕ) (h : m < n) :
    vget ((List.range n).map f) m = f m := by
  simp [vget, List.getD, List.getElem?_map, List.getElem?_range, h]

/-- `clip` of anything but NaN is an exact rational of magnitude at most 1. -/
theorem clip_not_nan {v : FV} (h : FV.isNaNb v = false) :
    ∃ q : ℚ, clip v = FV.fin q ∧ |q| ≤ 1 := by
  cases v with
  | fin q =>
      by_cases h1 : 1 < q
      · exact ⟨1, by simp [clip, FV.gtB, h1], by norm_num⟩
      · by_cases h2 : q < -1
        · refine ⟨-1, by simp [clip, FV.gtB, FV.ltB, h1, h2], by norm_num⟩
        · refine ⟨q, by simp [clip, FV.gtB, FV.ltB, h1, h2],
            by rw [abs_le]; constructor <;> linarith⟩
  | inf => exact ⟨1, by simp [clip, FV.gtB], by norm_num⟩
  | ninf => exact ⟨-1, by simp [clip, FV.gtB, FV.ltB], by norm_num⟩
  | nan => simp [FV.isNaNb] at h

/-- `clip` is the identity inside the band. -/
theorem clip_of_abs_le {q : ℚ} (h : |q| ≤ 1) : clip (FV.fin q) = FV.fin q := by
  rw [abs_le] at h
  have h1 : ¬ (1 : ℚ) < q := by linarith [h.2]
  have h2 : ¬ q < (-1 : ℚ) := by linarith [h.1]
  simp [clip, FV.gtB, FV.ltB, h1, h2]

/-- Spec-side formula (§4.3/§8): total padding per dimension. -/
def specConvPadTotal (padding : Option Padding) (inDim stride k : ℤ) : ℤ :=
  if padding = some .same then max 0 ((inDim - 1) * stride + k - inDim) else 0

/-- Spec-side formula: `floor((in + padTotal - kernel)/stride) + 1`. -/
def specConvOutDim (inDim padTotal k stride : ℤ) : ℤ :=
  (inDim + padTotal - k).fdiv stride + 1

/-- Claim C4: a Conv2D layer built from a configuration declares output
spatial size `floor((in + padTotal - kernel)/stride) + 1` per dimension,
where padTotal is 0 for valid padding and
`max(0, (in-1)*stride + kernel - in)` for same padding, split with the
odd remainder on the bottom/right; in particular same padding at stride 1
(for a kernel of at least 1) declares output spatial size equal to the
input spatial size. -/
theorem C4_conv2d_output_geometry
    (rand : ℕ → ℚ) (k : ℕ) (filters kH kW : ℤ) (stride : Option (ℤ × ℤ))
    (padding : Option Padding) (act : Option ActivationName)
    (N H_in W_in C_in : ℤ) (d : Conv2DData)
    (hd : (buildConv2DLayer rand k filters (kH, kW) stride padding act
      (N, H_in, W_in, C_in)).1.conv2dData = some d) :
    (d.outShape.2.1 =
        specConvOutDim H_in (specConvPadTotal padding H_in ((stride.map Prod.fst).getD 1) kH) kH
          ((stride.map Prod.fst).getD 1) ∧
     d.outShape.2.2.1 =
        specConvOutDim W_in (specConvPadTotal padding W_in ((stride.map Prod.snd).getD 1) kW) kW
          ((stride.map Prod.snd).getD 1)) ∧
    (d.padTop + d.padBottom = specConvPadTotal padding H_in ((stride.map Prod.fst).getD 1) kH ∧
     d.padTop = (specConvPadTotal padding H_in ((stride.map Prod.fst).getD 1) kH).fdiv 2 ∧
     d.padLeft + d.padRight = specConvPadTotal padding W_in ((stride.map Prod.snd).getD 1) kW ∧
     d.padLeft = (specConvPadTotal padding W_in ((stride.map Prod.snd).getD 1) kW).fdiv 2) ∧
    (padding = some .same → (stride.map Prod.fst).getD 1 = 1 → (stride.map Prod.snd).getD 1 = 1 →
      1 ≤ kH → 1 ≤ kW → d.outShape.2.1 = H_in ∧ d.outShape.2.2.1 = W_in) := by
  simp only [buildConv2DLayer, Layer.conv2dData, Option.some.injEq] at hd
  subst hd
  by_cases hp : padding = some Padding.same
  · simp only [specConvPadTotal, specConvOutDim, hp, if_pos rfl, reduceIte]
    refine ⟨⟨?_, ?_⟩, ⟨?_, ?_, ?_, ?_⟩, ?_⟩
    · congr 2
      generalize (max 0 ((H_in - 1) * ((stride.map Prod.fst).getD 1) + kH - H_in)) = p
      generalize p.fdiv 2 = x
      omega
    · congr 2
      generalize (max 0 ((W_in - 1) * ((stride.map Prod.snd).getD 1) + kW - W_in)) = p
      generalize p.fdiv 2 = x
      omega
    · generalize (max 0 ((H_in - 1) * ((stride.map Prod.fst).getD 1) + kH - H_in)) = p
      generalize p.fdiv 2 = x
      omega
    · trivial
    · generalize (max 0 ((W_in - 1) * ((stride.map Prod.snd).getD 1) + kW - W_in)) = p
      generalize p.fdiv 2 = x
      omega
    · trivial
    · intro _ h1 h2 hk1 hk2
      rw [h1, h2]
      constructor
      · have hmax : max 0 ((H_in - 1) * (1:ℤ) + kH - H_in) = kH - 1 := by omega
        rw [hmax]
        generalize (kH - 1).fdiv 2 = x
        rw [Int.fdiv_one]
        omega
      · have hmax : max 0 ((W_in - 1) * (1:ℤ) + kW - W_in) = kW - 1 := by omega
        rw [hmax]
        generalize (kW - 1).fdiv 2 = x
        rw [Int.fdiv_one]
        omega
  · simp only [specConvPadTotal, specConvOutDim, hp, if_neg hp, reduceIte]
    refine ⟨⟨?_, ?_⟩, ⟨?_, ?_, ?_, ?_⟩, fun h => h.elim⟩ <;> simp

/-- A concrete same-padded Conv2D layer for the C4 witness. -/
def convSameExample : Conv2DData :=
  ((buildConv2DLayer rand0 0 1 (3, 3) none (some Padding.same) none (1, 28, 28, 1)).1.conv2dData).getD
    ⟨Tensor4D.zeros 0 0 0 0, [], 0, 0, 0, 0, 0, 0, (0, 0, 0, 0), none⟩

/-- Witness for C4 at a 28×28 input with a 3×3 same-padded kernel. -/
theorem C4_conv2d_output_geometry_witness :
    (buildConv2DLayer rand0 0 1 (3, 3) none (some Padding.same) none (1, 28, 28, 1)).1.conv2dData
        = some convSameExample ∧
    convSameExample.outShape.2.1 = 28 ∧ convSameExample.outShape.2.2.1 = 28 :=
  ⟨by decide,
   (C4_conv2d_output_geometry rand0 0 1 3 3 none (some Padding.same) none 1 28 28 1
      convSameExample (by decide)).2.2 rfl rfl rfl (by norm_num) (by norm_num)⟩

/-- Claim C9: Flatten forward on a `[N,H,W,C]` tensor fails when `N` is
not exactly 1, and for `N = 1` succeeds with a flat vector of length
`H·W·C`, caching the original 4D shape. -/
theorem C9_flatten_batch_one (cur : Tensor4D) (size : ℤ)
    (hlen : cur.buf.length = cur.n * cur.h * cur.w * cur.c) :
    (cur.n ≠ 1 →
      flattenForward (.tensor cur) size = .error "Flatten only supports a batch size of 1") ∧
    (cur.n = 1 →
      flattenForward (.tensor cur) size =
        .ok (.vec (cur.buf.take (cur.h * cur.w * cur.c)), .flatten cur.n cur.h cur.w cur.c,
          .flatten size) ∧
      (cur.buf.take (cur.h * cur.w * cur.c)).length = cur.h * cur.w * cur.c) := by
  constructor
  · intro h
    simp [flattenForward, h]
  · intro h
    constructor
    · simp [flattenForward, h, Tensor4D.sliceTo]
    · rw [List.length_take, hlen, h]
      simp

/-- Witness for C9 on a concrete `[1,1,2,1]` tensor. -/
theorem C9_flatten_batch_one_witness :
    (([FV.fin 1, FV.fin 2] : List FV).length = 1 * 1 * 2 * 1) ∧
    (flattenForward (.tensor ⟨1, 1, 2, 1, [FV.fin 1, FV.fin 2]⟩) 2 =
        .ok (.vec [FV.fin 1, FV.fin 2], .flatten 1 1 2 1, .flatten 2)) :=
  ⟨by decide,
   by
    have h := (C9_flatten_batch_one ⟨1, 1, 2, 1, [FV.fin 1, FV.fin 2]⟩ 2 (by decide)).2 rfl
    exact h.1⟩

/-- Claim C6: the backward pass of `train` is seeded with
`prediction − target` exactly when the output layer is Dense with the
softmax activation identifier and the selected loss is categorical
cross-entropy, and with the loss registry `df(prediction, target)` in
every other case (`train` passes `trainSeed` to its backward fold). -/
theorem C6_train_seed (lossName : LossName) (outputLayer : Layer) (out target : Vec) :
    trainSeed lossName outputLayer (.vec out) target =
      if outputLayer.denseData.map DenseData.activation = some (some .softmax)
          ∧ lossName = .categoricalCrossEntropy
      then (List.range out.length).map fun i => vget out i - vget target i
      else lossDf lossName (vget out) target := by
  have hA : avRead (AV.vec out) = vget out := funext fun i => rfl
  cases outputLayer with
  | dense d =>
      by_cases h1 : d.activation = some ActivationName.softmax <;>
        by_cases h2 : lossName = LossName.categoricalCrossEntropy <;>
          simp [trainSeed, denseIsOutputSoftmax, Layer.denseData, hA, h1, h2]
  | input s => simp [trainSeed, Layer.denseData, hA]
  | conv2d d => simp [trainSeed, Layer.denseData, hA]
  | pool d => simp [trainSeed, Layer.denseData, hA]
  | flatten s => simp [trainSeed, Layer.denseData, hA]

/-- Claim C2 (code bug): the Dense backward step evaluates the activation
derivative on the cached pre-activation `z[i]`, i.e.
`dZ[i] = clip(dOut[i] · df(z[i]))` — not on the activation output as the
registry documentation and §4.2 require.  The second and third conjuncts
exhibit the divergence: with sigmoid at `z = [2]`, `dOut = [1]` the code
yields `clip(dsigmoid(2)) = −1`, while `df` applied to any genuine
sigmoid output `y ∈ (0,1)` can never produce −1. -/
theorem C2_dense_df_on_preactivation (tf : TransFuns) (lossName : LossName)
    (d : DenseData) (z dOutv : Vec) (a : ActivationName)
    (ha : d.activation = some a) (hsm : a ≠ .softmax)
    (i : ℕ) (hi : i < d.outputSize.toNat) :
    (vget (denseGradDZ tf lossName d z dOutv) i =
      clip (vget dOutv i * actDf tf a (vget z i))) ∧
    (vget (denseGradDZ TFq .mse ⟨1, 1, [FV.fin 0], [FV.fin 0], some .sigmoid⟩
        [FV.fin 2] [FV.fin 1]) 0 = FV.fin (-1)) ∧
    (∀ y : ℚ, 0 < y → y < 1 →
      clip (FV.fin 1 * actDf TFq .sigmoid (FV.fin y)) ≠ FV.fin (-1)) := by
  refine ⟨?_, by decide, ?_⟩
  · have hns : denseIsOutputSoftmax lossName d = false := by
      simp [denseIsOutputSoftmax, ha]
      intro h
      exact absurd h hsm
    rw [denseGradDZ, hns]
    simp only [Bool.false_eq_true, if_false]
    rw [vget_range_map _ _ _ hi, ha]
  · intro y hy0 hy1
    have hmul : FV.fin 1 * actDf TFq .sigmoid (FV.fin y) = FV.fin (y * (1 - y)) := by
      show FV.fin 1 * (FV.fin y * (FV.fin 1 - FV.fin y)) = _
      rw [FV.fin_sub_fin, FV.fin_mul_fin, FV.fin_mul_fin, one_mul]
    rw [hmul]
    have habs : |y * (1 - y)| ≤ 1 := by
      rw [abs_le]
      constructor <;> nlinarith
    rw [clip_of_abs_le habs]
    intro hcontra
    have : y * (1 - y) = -1 := by exact_mod_cast (FV.fin.injEq _ _).mp hcontra
    nlinarith

/-- Witness for C2 on a relu Dense layer with cached `z = [5]`. -/
theorem C2_dense_df_on_preactivation_witness :
    ((⟨1, 1, [FV.fin 0], [FV.fin 0], some .relu⟩ : DenseData).activation = some .relu) ∧
    (vget (denseGradDZ TFq .mse ⟨1, 1, [FV.fin 0], [FV.fin 0], some .relu⟩
        [FV.fin 5] [FV.fin 1]) 0 =
      clip (vget [FV.fin 1] 0 * actDf TFq .relu (vget [FV.fin 5] 0))) :=
  ⟨rfl,
   (C2_dense_df_on_preactivation TFq .mse ⟨1, 1, [FV.fin 0], [FV.fin 0], some .relu⟩
      [FV.fin 5] [FV.fin 1] .relu rfl (by decide) 0 (by decide)).1⟩

/-- Claim C3 (amended): in the Dense backward step every bias-gradient
component `dB[i] = clip(dZ[i])` has magnitude at most 1 (whenever the
clipped value is not NaN), but the weight-gradient components applied to
the weights are `dW[i·inSize+j] = dZ[i]·x[j]` — `dZ` is clipped, the
cached input `x` is not, so `dW` is unbounded. -/
theorem C3_dense_gradient_clipping (tf : TransFuns) (lossName : LossName)
    (d : DenseData) (z dOutv x : Vec)
    (hnan : ∀ i, i < d.outputSize.toNat →
      FV.isNaNb (vget (denseGradDZ tf lossName d z dOutv) i) = false) :
    (∀ i, i < d.outputSize.toNat →
      ∃ q : ℚ,
        vget (denseGradDB (denseGradDZ tf lossName d z dOutv) d.outputSize.toNat) i = FV.fin q ∧
        |q| ≤ 1) ∧
    (∀ i j, i < d.outputSize.toNat → j < d.inputSize.toNat →
      vget (denseGradDW (denseGradDZ tf lossName d z dOutv) x d.inputSize.toNat d.outputSize.toNat)
          (i * d.inputSize.toNat + j) =
        vget (denseGradDZ tf lossName d z dOutv) i * vget x j) := by
  constructor
  · intro i hi
    rw [denseGradDB, vget_range_map _ _ _ hi]
    exact clip_not_nan (hnan i hi)
  · intro i j hi hj
    have hpos : 0 < d.inputSize.toNat := by omega
    have hm : i * d.inputSize.toNat + j < d.inputSize.toNat * d.outputSize.toNat := by
      have h1 : i * d.inputSize.toNat + j < i * d.inputSize.toNat + d.inputSize.toNat := by omega
      have h2 : i * d.inputSize.toNat + d.inputSize.toNat = (i + 1) * d.inputSize.toNat := by ring
      have h3 : (i + 1) * d.inputSize.toNat ≤ d.outputSize.toNat * d.inputSize.toNat :=
        Nat.mul_le_mul_right _ (by omega)
      have h4 : d.inputSize.toNat * d.outputSize.toNat = d.outputSize.toNat * d.inputSize.toNat :=
        Nat.mul_comm _ _
      omega
    rw [denseGradDW, vget_range_map _ _ _ hm]
    have hdiv : (i * d.inputSize.toNat + j) / d.inputSize.toNat = i := by
      rw [show i * d.inputSize.toNat + j = j + d.inputSize.toNat * i by ring]
      rw [Nat.add_mul_div_left _ _ hpos, Nat.div_eq_of_lt hj]
      omega
    have hmod : (i * d.inputSize.toNat + j) % d.inputSize.toNat = j := by
      rw [show i * d.inputSize.toNat + j = j + d.inputSize.toNat * i by ring]
      rw [Nat.add_mul_mod_self_left, Nat.mod_eq_of_lt hj]
    rw [hdiv, hmod]

/-- A concrete unit Dense layer for the C3 counterexample. -/
def denseUnitExample : DenseData := ⟨1, 1, [FV.fin 0], [FV.fin 0], none⟩

/-- Counterexample to C3 as stated: with cached input `x = [4]` and
incoming gradient `[1]`, the weight gradient used by the in-place update
is `dW = [4]` (the update stores `0 − lr·4`), of magnitude above 1. -/
theorem C3_counterexample :
    vget (denseGradDW (denseGradDZ TFq .mse denseUnitExample [FV.fin 0] [FV.fin 1])
        [FV.fin 4] 1 1) 0 = FV.fin 4 ∧
    denseBackward TFq false 1 .mse (.vec [FV.fin 1]) denseUnitExample
        (.dense ⟨[FV.fin 4], [FV.fin 0]⟩) =
      .ok (.vec [FV.fin 0], .dense ⟨1, 1, [FV.fin (-4)], [FV.fin (-1)], none⟩) ∧
    ¬ |(4 : ℚ)| ≤ 1 :=
  ⟨by decide, by decide, by norm_num⟩

/-- Witness for the amended C3 on a concrete layer. -/
theorem C3_dense_gradient_clipping_witness :
    (∀ i, i < (1 : ℤ).toNat →
      FV.isNaNb (vget (denseGradDZ TFq .mse denseUnitExample [FV.fin 0] [FV.fin 3]) i) = false) ∧
    (∃ q : ℚ,
      vget (denseGradDB (denseGradDZ TFq .mse denseUnitExample [FV.fin 0] [FV.fin 3]) 1) 0 =
        FV.fin q ∧ |q| ≤ 1) :=
  ⟨by decide,
   by
    have h := (C3_dense_gradient_clipping TFq .mse denseUnitExample [FV.fin 0] [FV.fin 3]
      [FV.fin 4] (by decide)).1 0 (by decide)
    exact h⟩

/-- A successful Dense forward step returns its layer record untouched
(the source writes no parameter in any forward arm). -/
theorem denseForward_ok_layer (tf : TransFuns) (debug : Bool) (cur : AV) (d : DenseData)
    (r : AV × LayerCache × Layer) (h : denseForward tf debug cur d = .ok r) :
    r.2.2 = .dense d := by
  cases cur <;>
    (unfold denseForward at h
     simp only [bind, Except.bind] at h
     split_ifs at h <;>
       first
       | exact Except.noConfusion h
       | (cases h; rfl))

/-- Every successful forward step returns its layer untouched. -/
theorem forwardLayer_ok_layer (tf : TransFuns) (debug : Bool) (l : Layer) (input : AV)
    (r : AV × LayerCache × Layer) (h : forwardLayer tf debug l input = .ok r) : r.2.2 = l := by
  cases l with
  | input s =>
      simp only [forwardLayer] at h
      cases h
      rfl
  | dense d => exact denseForward_ok_layer tf debug input d r h
  | conv2d d =>
      cases input with
      | vec v => exact Except.noConfusion h
      | tensor t =>
          simp only [forwardLayer, conv2DForward, Except.ok.injEq] at h
          rw [← h]
  | pool d =>
      cases input with
      | vec v => exact Except.noConfusion h
      | tensor t =>
          simp only [forwardLayer, poolForward, Except.ok.injEq] at h
          rw [← h]
  | flatten size =>
      cases input with
      | vec v => exact Except.noConfusion h
      | tensor t =>
          simp only [forwardLayer, flattenForward] at h
          split_ifs at h <;>
            first
            | exact Except.noConfusion h
            | (simp only [Except.ok.injEq] at h; rw [← h])

/-- The forward fold records exactly the traversed layers, unchanged. -/
theorem forward_fold_layers (tf : TransFuns) (debug : Bool) (layers : List Layer)
    (acc : List CtxEntry) (act : AV) (st : List CtxEntry × AV)
    (h : layers.foldlM (forwardStep tf debug) (acc, act) = .ok st) :
    st.1.map CtxEntry.layer = acc.map CtxEntry.layer ++ layers := by
  induction layers generalizing acc act with
  | nil =>
      simp only [List.foldlM] at h
      cases h
      simp
  | cons l ls ih =>
      simp only [List.foldlM] at h
      cases hstep : forwardStep tf debug (acc, act) l with
      | error e =>
          rw [hstep] at h
          exact Except.noConfusion h
      | ok st2 =>
          rw [hstep] at h
          simp only [bind, Except.bind] at h
          have h2 := ih st2.1 st2.2 h
          cases hfl : forwardLayer tf debug l act with
          | error e =>
              unfold forwardStep at hstep
              rw [hfl] at hstep
              exact Except.noConfusion hstep
          | ok r =>
              have hlayer := forwardLayer_ok_layer tf debug l act r hfl
              unfold forwardStep at hstep
              rw [hfl] at hstep
              simp only [bind, Except.bind, pure, Except.pure, Except.ok.injEq] at hstep
              rw [← hstep] at h2
              simp only [List.map_append, List.map_cons, List.map_nil] at h2
              rw [hlayer] at h2
              rw [h2]
              simp

/-- Claim C10: the forward pass run by `guess` leaves every layer — all
Dense weights and biases and all Conv2D kernels and biases — exactly as
it found it: the context it produces carries layers equal to the
network's own (`guess` is `forwardPass` followed by reading the last
output; only the backward pass of `train` produces updated layers). -/
theorem C10_guess_preserves_parameters (tf : TransFuns) (net : NeuralNetwork) (input : AV)
    (ctx : List CtxEntry) (h : forwardPass tf net input = .ok ctx) :
    ctx.map CtxEntry.layer = net.layers := by
  unfold forwardPass at h
  cases hf : net.layers.foldlM (forwardStep tf net.debug) ([], input) with
  | error e =>
      rw [hf] at h
      exact Except.noConfusion h
  | ok st =>
      rw [hf] at h
      simp only [bind, Except.bind, pure, Except.pure, Except.ok.injEq] at h
      have h2 := forward_fold_layers tf net.debug net.layers [] input st hf
      rw [h] at h2
      simpa using h2

/-- A concrete 1-input/1-output dense network. -/
def frameNet : NeuralNetwork :=
  (mkNN TFq rand0 [.input (1, 1, 1, 1), .dense 1 none] ⟨none, none, none⟩).toOption.getD
    ⟨[], 0, .mse, false⟩

/-- Its forward context on input `[1]`. -/
def frameCtx : List CtxEntry :=
  (forwardPass TFq frameNet (.vec [FV.fin 1])).toOption.getD []

/-- Witness for C10 on the concrete network. -/
theorem C10_guess_preserves_parameters_witness :
    forwardPass TFq frameNet (.vec [FV.fin 1]) = .ok frameCtx ∧
    frameCtx.map CtxEntry.layer = frameNet.layers :=
  ⟨by decide, C10_guess_preserves_parameters TFq frameNet (.vec [FV.fin 1]) frameCtx (by decide)⟩

/-- Claim C8 (amended, wrong-rank half): feeding a flat vector to a
network whose second layer is Conv2D fails immediately with the Conv2D
type error, both in the forward pass and in `guess` (and by
`forward_fold_layers` no forward step can modify a parameter). -/
theorem C8_wrong_rank_fails (tf : TransFuns) (net : NeuralNetwork) (s : ℤ × ℤ × ℤ × ℤ)
    (d : Conv2DData) (rest : List Layer) (v : Vec)
    (hl : net.layers = .input s :: .conv2d d :: rest) :
    forwardPass tf net (.vec v) = .error "Conv2D expects Tensor4D input" ∧
    guess tf net (.vec v) = .error "Conv2D expects Tensor4D input" := by
  have hfp : forwardPass tf net (.vec v) = .error "Conv2D expects Tensor4D input" := by
    unfold forwardPass
    rw [hl]
    simp only [List.foldlM, forwardStep, forwardLayer, conv2DForward, bind, Except.bind, pure,
      Except.pure]
  refine ⟨hfp, ?_⟩
  unfold guess
  rw [hfp]
  rfl

/-- A concrete input→conv2d network for the C8 witness. -/
def badRankNet : NeuralNetwork :=
  (mkNN TFq rand0 [.input (1, 2, 2, 1), .conv2d 1 (1, 1) none none none]
      ⟨none, none, none⟩).toOption.getD ⟨[], 0, .mse, false⟩

/-- Witness for the amended C8 on the concrete conv network. -/
theorem C8_wrong_rank_fails_witness :
    badRankNet.layers.length = 2 ∧
    guess TFq badRankNet (.vec [FV.fin 1]) = .error "Conv2D expects Tensor4D input" := by
  refine ⟨by decide, ?_⟩
  have h := C8_wrong_rank_fails TFq badRankNet (1, 2, 2, 1)
    ((badRankNet.layers.getD 1 (.flatten 0)).conv2dData.getD
      ⟨Tensor4D.zeros 0 0 0 0, [], 0, 0, 0, 0, 0, 0, (0, 0, 0, 0), none⟩) [] [FV.fin 1] (by decide)
  exact h.2

/-- A network declaring a 7-element input. -/
def badSizeNet : NeuralNetwork :=
  (mkNN TFq rand0 [.input (1, 1, 1, 7), .dense 1 none] ⟨none, none, none⟩).toOption.getD
    ⟨[], 0, .mse, false⟩

/-- Counterexample to C8 as stated: a `guess` call whose input length (1)
disagrees with the declared input size (7) raises no error at all — the
out-of-range reads poison the output with NaN and the call returns
normally. -/
theorem C8_counterexample :
    mkNN TFq rand0 [.input (1, 1, 1, 7), .dense 1 none] ⟨none, none, none⟩ = .ok badSizeNet ∧
    guess TFq badSizeNet (.vec [FV.fin 1]) = .ok (.vec [FV.nan]) :=
  ⟨by decide, by decide⟩

/-- Claim C7 (amended): during the backward loop of `train`, once at
least one backward step has completed successfully, the gradient held by
the loop always passes the NaN guard — in particular a `Float32Array`
gradient containing NaN can never survive a step (the engine raises the
fatal error instead).  Non-finite values inside 4D tensor gradients, and
inside the parameter gradients (`dW`, `dB`, `dKernel`, `dBias`), are
never inspected; the counterexample below exhibits such a silent NaN. -/
theorem C7_train_nan_guard (tf : TransFuns) (debug : Bool) (lr : ℚ) (lossName : LossName)
    (entries : List CtxEntry) (init st : AV × List Layer)
    (hne : entries ≠ [])
    (h : entries.foldlM (trainBackStep tf debug lr lossName) init = .ok st) :
    nanGuardFires debug st.1 = false ∧
    ∀ v, st.1 = .vec v → v.any FV.isNaNb = false := by
  induction entries generalizing init with
  | nil => exact absurd rfl hne
  | cons e rest ih =>
      simp only [List.foldlM] at h
      cases hstep : trainBackStep tf debug lr lossName init e with
      | error m =>
          rw [hstep] at h
          exact Except.noConfusion h
      | ok st2 =>
          rw [hstep] at h
          simp only [bind, Except.bind] at h
          have hguard : nanGuardFires debug st2.1 = false := by
            unfold trainBackStep at hstep
            cases hb : backwardLayer tf debug lr lossName e.layer init.1 e.cache with
            | error m =>
                rw [hb] at hstep
                exact Except.noConfusion hstep
            | ok pr =>
                rw [hb] at hstep
                simp only [bind, Except.bind] at hstep
                split_ifs at hstep with hg <;>
                  first
                  | exact Except.noConfusion hstep
                  | (simp only [pure, Except.pure, Except.ok.injEq] at hstep
                     rw [← hstep]
                     simpa using hg)
          cases rest with
          | nil =>
              simp only [List.foldlM, pure, Except.pure, Except.ok.injEq] at h
              subst h
              refine ⟨hguard, ?_⟩
              intro v hv
              rw [hv] at hguard
              simp only [nanGuardFires, Bool.or_eq_false_iff] at hguard
              exact hguard.2
          | cons e2 rest2 =>
              exact ih st2 (by simp) h

/-- The NaN-laundering network of the C7 counterexample. -/
def nanTraceNet : NeuralNetwork :=
  (mkNN TFq rand0
      [.input (1, 2, 2, 1), .conv2d 1 (1, 1) none none none, .pool (2, 2) none, .flatten,
        .dense 1 none]
      ⟨none, none, none⟩).toOption.getD ⟨[], 0, .mse, false⟩

/-- Its input: one NaN among finite pixels. -/
def nanTraceInput : AV := .tensor ⟨1, 2, 2, 1, [FV.nan, FV.fin 1, FV.fin 2, FV.fin 3]⟩

/-- The forward context of that run. -/
def nanTraceCtx : List CtxEntry :=
  (forwardPass TFq nanTraceNet nanTraceInput).toOption.getD []

/-- The seed gradient of that run. -/
def nanTraceSeed : Vec :=
  match nanTraceCtx.getLast? with
  | some last => trainSeed .mse last.layer last.out [FV.fin 0]
  | none => []

/-- Backward state after the dense, flatten and pool steps: exactly what
the conv layer consumes. -/
def nanTraceAfter3 : AV × List Layer :=
  ((nanTraceCtx.reverse.take 3).foldlM (trainBackStep TFq false (mkRat 1 10) .mse)
    (.vec nanTraceSeed, [])).toOption.getD (.vec [], [])

/-- Junk fallback entry (never reached in the concrete run). -/
def emptyCtxEntry : CtxEntry := ⟨.flatten 0, .vec [], .input (0, 0, 0, 0)⟩

/-- The conv cache of that run. -/
def nanTraceConvCache : Conv2DCacheData :=
  match (nanTraceCtx.getD 1 emptyCtxEntry).cache with
  | .conv2d c => c
  | _ => ⟨Tensor4D.zeros 0 0 0 0, Tensor4D.zeros 0 0 0 0, Tensor4D.zeros 0 0 0 0,
      Tensor4D.zeros 0 0 0 0, 0, 0, 0, 0, 0, 0⟩

/-- The gradients the Conv2D backward step computes in that run. -/
def nanTraceConvGrads : ConvGrads :=
  let c := nanTraceConvCache
  let dOutT := match nanTraceAfter3.1 with
    | .tensor t => t
    | .vec _ => Tensor4D.zeros 0 0 0 0
  let dZ := conv2DGradDZ TFq none dOutT c.postAct c.input.n c.outH.toNat c.outW.toNat c.kernel.c
  conv2DGradParts dZ c.padded c.kernel c.strideH c.strideW c.input.n c.outH.toNat c.outW.toNat

/-- The network after the training step. -/
def nanTraceTrained : NeuralNetwork :=
  (train TFq nanTraceNet nanTraceInput [FV.fin 0]).toOption.getD ⟨[], 0, .mse, false⟩

/-- Counterexample to C7 as stated: training `nanTraceNet` (input →
conv2d 1×1 → pool 2×2 → flatten → dense) on an input containing NaN.
Max-pooling launders the NaN (NaN never wins a comparison), so every
gradient returned by a backward step is finite and `train` completes
without any error — yet the Conv2D backward pass produced a kernel
gradient `dKernel` containing NaN (conjunct 2, recomputed from the very
cache and incoming gradient of that run) and silently corrupted the
stored kernel with it (conjunct 3). -/
theorem C7_counterexample :
    (train TFq nanTraceNet nanTraceInput [FV.fin 0]).isOk = true ∧
    FV.isNaNb (nanTraceConvGrads.dKernel.get 0 0 0 0) = true ∧
    FV.isNaNb
      (((nanTraceTrained.layers.getD 1 (.flatten 0)).conv2dData.getD
          ⟨Tensor4D.zeros 0 0 0 0, [], 0, 0, 0, 0, 0, 0, (0, 0, 0, 0), none⟩).kernel.get 0 0 0 0)
      = true :=
  ⟨by decide, by decide, by decide⟩

/-- Final backward-loop state of the full run. -/
def nanTraceFinal : AV × List Layer :=
  (nanTraceCtx.reverse.foldlM (trainBackStep TFq false (mkRat 1 10) .mse)
    (.vec nanTraceSeed, [])).toOption.getD (.vec [], [])

/-- Witness for the amended C7 on the NaN trace run. -/
theorem C7_train_nan_guard_witness :
    (nanTraceCtx.reverse ≠ []) ∧
    nanGuardFires false nanTraceFinal.1 = false :=
  ⟨by decide,
   (C7_train_nan_guard TFq false (mkRat 1 10) .mse nanTraceCtx.reverse
      (.vec nanTraceSeed, []) nanTraceFinal (by decide) (by decide)).1⟩

-- The pool forward fold splits into the value fold and the mask map.
theorem foldl_pair_append {α β γ : Type} (l : List α) (g : γ → α → γ) (f : α → β)
    (c0 : γ) (acc : List β) :
    (l.foldl (fun st p => (g st.1 p, st.2 ++ [f p])) (c0, acc)) =
      (l.foldl g c0, acc ++ l.map f) := by
  induction l generalizing c0 acc with
  | nil => simp
  | cons p rest ih => simp [ih]

-- The argmax fold either keeps its state or lands on a scanned position.
theorem argmax_fold_structure (t : Tensor4D) (nn : ℕ) (baseY baseX : ℤ) (c : ℕ)
    (l : List (ℕ × ℕ)) (st : FV × ℤ) :
    (l.foldl
      (fun st p =>
        let iy := baseY + (p.1 : ℤ)
        let ix := baseX + (p.2 : ℤ)
        let v := t.getZ (nn : ℤ) iy ix (c : ℤ)
        if FV.gtB v st.1 then (v, t.idxZ (nn : ℤ) iy ix (c : ℤ)) else st) st) = st ∨
    ∃ p ∈ l,
      (l.foldl
        (fun st p =>
          let iy := baseY + (p.1 : ℤ)
          let ix := baseX + (p.2 : ℤ)
          let v := t.getZ (nn : ℤ) iy ix (c : ℤ)
          if FV.gtB v st.1 then (v, t.idxZ (nn : ℤ) iy ix (c : ℤ)) else st) st).2 =
        t.idxZ (nn : ℤ) (baseY + (p.1 : ℤ)) (baseX + (p.2 : ℤ)) (c : ℤ) := by
  induction l generalizing st with
  | nil => exact Or.inl rfl
  | cons p rest ih =>
      simp only [List.foldl_cons]
      by_cases hgt :
          FV.gtB (t.getZ (nn : ℤ) (baseY + (p.1 : ℤ)) (baseX + (p.2 : ℤ)) (c : ℤ)) st.1 = true
      · simp only [hgt, if_pos rfl, reduceIte]
        cases ih ((t.getZ (nn : ℤ) (baseY + (p.1 : ℤ)) (baseX + (p.2 : ℤ)) (c : ℤ)),
            t.idxZ (nn : ℤ) (baseY + (p.1 : ℤ)) (baseX + (p.2 : ℤ)) (c : ℤ)) with
        | inl h => exact Or.inr ⟨p, by simp, by rw [h]⟩
        | inr h =>
            obtain ⟨p2, hp2, h2⟩ := h
            exact Or.inr ⟨p2, by simp [hp2], h2⟩
      · rw [if_neg hgt]
        cases ih st with
        | inl h => exact Or.inl h
        | inr h =>
            obtain ⟨p2, hp2, h2⟩ := h
            exact Or.inr ⟨p2, by simp [hp2], h2⟩

theorem poolArgmax_lands (t : Tensor4D) (nn : ℕ) (baseY baseX : ℤ) (wH wW : ℕ) (c : ℕ)
    (hwh : 1 ≤ wH) (hww : 1 ≤ wW)
    (hv0 : FV.isFiniteb (t.getZ (nn : ℤ) baseY baseX (c : ℤ)) = true) :
    ∃ wy, wy < wH ∧ ∃ wx, wx < wW ∧
      (poolArgmax t nn baseY baseX wH wW c).2 =
        t.idxZ (nn : ℤ) (baseY + (wy : ℤ)) (baseX + (wx : ℤ)) (c : ℤ) := by
  unfold poolArgmax
  have hcons : ∃ rest, idx2 wH wW = (0, 0) :: rest := by
    cases hwH : wH with
    | zero => omega
    | succ a =>
        cases hwW : wW with
        | zero => omega
        | succ b =>
            refine ⟨((List.range (b + 1)).tail.map fun j => (0, j)) ++
              ((List.range (a + 1)).tail.flatMap fun i => (List.range (b + 1)).map fun j => (i, j)), ?_⟩
            simp only [idx2, List.range_succ_eq_map]
            simp [List.flatMap_cons, List.map_cons]
  obtain ⟨rest, hrest⟩ := hcons
  rw [hrest]
  simp only [List.foldl_cons]
  have hgt : FV.gtB (t.getZ (nn : ℤ) (baseY + ((0 : ℕ) : ℤ)) (baseX + ((0 : ℕ) : ℤ)) (c : ℤ))
      FV.ninf = true := by
    have : baseY + ((0 : ℕ) : ℤ) = baseY := by simp
    rw [this, show baseX + ((0 : ℕ) : ℤ) = baseX by simp]
    cases hv : t.getZ (nn : ℤ) baseY baseX (c : ℤ) with
    | fin q => rfl
    | inf => rw [hv] at hv0; simp [FV.isFiniteb] at hv0
    | ninf => rw [hv] at hv0; simp [FV.isFiniteb] at hv0
    | nan => rw [hv] at hv0; simp [FV.isFiniteb] at hv0
  simp only [hgt, reduceIte]
  rcases argmax_fold_structure t nn baseY baseX c rest _ with h | h
  · refine ⟨0, by omega, 0, by omega, ?_⟩
    rw [h]
  · obtain ⟨p, hp, h2⟩ := h
    refine ⟨p.1, ?_, p.2, ?_, h2⟩
    · have : p ∈ idx2 wH wW := by rw [hrest]; exact List.mem_cons_of_mem _ hp
      simp only [idx2, List.mem_flatMap, List.mem_map, List.mem_range] at this
      obtain ⟨i, hi, j, hj, hij⟩ := this
      rw [← hij]
      exact hi
    · have : p ∈ idx2 wH wW := by rw [hrest]; exact List.mem_cons_of_mem _ hp
      simp only [idx2, List.mem_flatMap, List.mem_map, List.mem_range] at this
      obtain ⟨i, hi, j, hj, hij⟩ := this
      rw [← hij]
      exact hj

theorem tdiv_coe (m n : ℕ) : Int.tdiv (m : ℤ) (n : ℤ) = ((m / n : ℕ) : ℤ) := rfl

theorem tmod_coe (m n : ℕ) : Int.tmod (m : ℤ) (n : ℤ) = ((m % n : ℕ) : ℤ) := rfl

theorem inner_bound (W C x c : ℕ) (hx : x < W) (hc : c < C) : x * C + c < W * C := by
  calc x * C + c < x * C + C := by omega
    _ = (x + 1) * C := by ring
    _ ≤ W * C := Nat.mul_le_mul_right _ (by omega)

theorem stride_bound (H W C y x c : ℕ) (hy : y < H) (hx : x < W) (hc : c < C) :
    y * (W * C) + x * C + c < H * (W * C) := by
  have h1 : x * C + c < W * C := inner_bound W C x c hx hc
  calc y * (W * C) + x * C + c < y * (W * C) + W * C := by omega
    _ = (y + 1) * (W * C) := by ring
    _ ≤ H * (W * C) := Nat.mul_le_mul_right _ (by omega)

theorem poolDecode_encode (H W C a y x c : ℕ) (hy : y < H) (hx : x < W) (hc : c < C) :
    poolDecode (H * W * C) (W * C) C
      ((a * (H * W * C) + y * (W * C) + x * C + c : ℕ) : ℤ) =
      ((a : ℤ), (y : ℤ), (x : ℤ), (c : ℤ)) := by
  have hB : y * (W * C) + x * C + c < H * (W * C) := stride_bound H W C y x c hy hx hc
  have hBc : x * C + c < W * C := inner_bound W C x c hx hc
  have hsN : 0 < H * W * C := by
    have := Nat.mul_pos (Nat.mul_pos (by omega : 0 < H) (by omega : 0 < W)) (by omega : 0 < C)
    simpa [Nat.mul_assoc] using this
  have hsH : 0 < W * C := Nat.mul_pos (by omega) (by omega)
  have hdiv1 : (a * (H * W * C) + y * (W * C) + x * C + c) / (H * W * C) = a := by
    rw [show a * (H * W * C) + y * (W * C) + x * C + c
        = (y * (W * C) + x * C + c) + (H * W * C) * a by ring]
    rw [Nat.add_mul_div_left _ _ hsN, Nat.div_eq_of_lt (by rw [Nat.mul_assoc]; omega)]
    omega
  have hmod1 : (a * (H * W * C) + y * (W * C) + x * C + c) % (H * W * C)
      = y * (W * C) + x * C + c := by
    rw [show a * (H * W * C) + y * (W * C) + x * C + c
        = (y * (W * C) + x * C + c) + (H * W * C) * a by ring]
    rw [Nat.add_mul_mod_self_left, Nat.mod_eq_of_lt (by rw [Nat.mul_assoc]; omega)]
  have hdiv2 : (y * (W * C) + x * C + c) / (W * C) = y := by
    rw [show y * (W * C) + x * C + c = (x * C + c) + (W * C) * y by ring]
    rw [Nat.add_mul_div_left _ _ hsH, Nat.div_eq_of_lt hBc]
    omega
  have hmod2 : (y * (W * C) + x * C + c) % (W * C) = x * C + c := by
    rw [show y * (W * C) + x * C + c = (x * C + c) + (W * C) * y by ring]
    rw [Nat.add_mul_mod_self_left, Nat.mod_eq_of_lt hBc]
  have hdiv3 : (x * C + c) / C = x := by
    rw [show x * C + c = c + C * x by ring]
    rw [Nat.add_mul_div_left _ _ (by omega : 0 < C), Nat.div_eq_of_lt hc]
    omega
  have hmod3 : (x * C + c) % C = c := by
    rw [show x * C + c = c + C * x by ring]
    rw [Nat.add_mul_mod_self_left, Nat.mod_eq_of_lt hc]
  unfold poolDecode
  simp only [tdiv_coe, tmod_coe, hdiv1, hmod1, hdiv2, hmod2, hdiv3, hmod3]


-- A fold reading a mask at an incrementing counter equals the fold
-- pairing each element with its own mask entry.
theorem foldl_mask_counter {α γ : Type} (M : List ℤ) (g : α → ℤ) (f : γ → α → ℤ → γ) :
    ∀ (l : List α) (k : ℕ) (c0 : γ) (suffix : List ℤ),
    M.drop k = l.map g ++ suffix →
    l.foldl (fun st p =>
        match M.get? st.2 with
        | some idx => (f st.1 p idx, st.2 + 1)
        | none => (st.1, st.2 + 1)) (c0, k) =
      (l.foldl (fun t p => f t p (g p)) c0, k + l.length) := by
  intro l
  induction l with
  | nil => intro k c0 suffix hM; simp
  | cons p rest ih =>
      intro k c0 suffix hM
      have hget : M.get? k = some (g p) := by
        have h1 : M[k]? = (M.drop k)[0]? := by simp [List.getElem?_drop]
        rw [List.get?_eq_getElem?, h1, hM]
        simp
      have hM2 : M.drop (k + 1) = rest.map g ++ suffix := by
        have h2 : M.drop (k + 1) = (M.drop k).drop 1 := by rw [List.drop_drop]
        rw [h2, hM]
        simp
      simp only [List.foldl_cons, hget]
      rw [ih (k + 1) (f c0 p (g p)) suffix hM2]
      exact congrArg (Prod.mk _) (by simp only [List.length_cons]; omega)

-- Fold congruence under an invariant.
theorem foldl_congr_inv {α γ : Type} (P : γ → Prop) (f1 f2 : γ → α → γ) :
    ∀ (l : List α) (c0 : γ),
    P c0 →
    (∀ c p, P c → p ∈ l → P (f1 c p)) →
    (∀ c p, P c → p ∈ l → f1 c p = f2 c p) →
    l.foldl f1 c0 = l.foldl f2 c0 := by
  intro l
  induction l with
  | nil => intro c0 _ _ _; rfl
  | cons p rest ih =>
      intro c0 h0 hpres heq
      simp only [List.foldl_cons]
      rw [← heq c0 p h0 (by simp)]
      exact ih (f1 c0 p) (hpres c0 p h0 (by simp))
        (fun c q hc hq => hpres c q hc (by simp [hq]))
        (fun c q hc hq => heq c q hc (by simp [hq]))

theorem idxZ_coe (t : Tensor4D) (a y x d : ℕ) :
    t.idxZ (a : ℤ) (y : ℤ) (x : ℤ) (d : ℤ) = ((t.idx a y x d : ℕ) : ℤ) := by
  simp only [Tensor4D.idxZ, Tensor4D.idx]
  push_cast
  ring

theorem getZ_coe (t : Tensor4D) (a y x d : ℕ) :
    t.getZ (a : ℤ) (y : ℤ) (x : ℤ) (d : ℤ) = t.buf.getD (t.idx a y x d) FV.nan := by
  rw [Tensor4D.getZ, idxZ_coe]
  simp

theorem setZ_coe (t : Tensor4D) (a y x d : ℕ) (v : FV) :
    t.setZ (a : ℤ) (y : ℤ) (x : ℤ) (d : ℤ) v =
      { t with buf := t.buf.set (t.idx a y x d) v } := by
  rw [Tensor4D.setZ, idxZ_coe]
  simp

-- Flat scatter-add on a buffer, its cell characterization and its
-- effect on the rational sum.
def bufAdd (b : List FV) (q : ℕ) (v : FV) : List FV := b.set q (b.getD q FV.nan + v)

theorem bufAdd_length (b : List FV) (q : ℕ) (v : FV) : (bufAdd b q v).length = b.length := by
  simp [bufAdd]

theorem bufAdd_getD_self (b : List FV) (q : ℕ) (v : FV) (hq : q < b.length) :
    (bufAdd b q v).getD q FV.nan = b.getD q FV.nan + v := by
  simp [bufAdd, List.getD_eq_getElem?_getD, List.getElem?_set_self hq]

theorem bufAdd_getD_ne (b : List FV) (i q : ℕ) (v : FV) (h : i ≠ q) :
    (bufAdd b i v).getD q FV.nan = b.getD q FV.nan := by
  simp [bufAdd, List.getD_eq_getElem?_getD, List.getElem?_set_ne h]

theorem fin_exists {v : FV} (h : FV.isFiniteb v = true) : ∃ q, v = FV.fin q := by
  cases v with
  | fin q => exact ⟨q, rfl⟩
  | inf => simp [FV.isFiniteb] at h
  | ninf => simp [FV.isFiniteb] at h
  | nan => simp [FV.isFiniteb] at h

theorem bufAdd_fold_getD {α : Type} (pos : α → ℕ) (grad : α → FV) :
    ∀ (l : List α) (b : List FV) (q : ℕ), q < b.length →
    (l.foldl (fun b p => bufAdd b (pos p) (grad p)) b).getD q FV.nan =
      ((l.filter (fun p => pos p == q)).map grad).foldl (fun s v => s + v)
        (b.getD q FV.nan) := by
  intro l
  induction l with
  | nil => intro b q hq; rfl
  | cons p rest ih =>
      intro b q hq
      simp only [List.foldl_cons]
      by_cases hpq : pos p = q
      · subst hpq
        rw [List.filter_cons_of_pos (by simp)]
        simp only [List.map_cons, List.foldl_cons]
        rw [ih (bufAdd b (pos p) (grad p)) (pos p) (by rw [bufAdd_length]; exact hq)]
        rw [bufAdd_getD_self _ _ _ hq]
      · rw [List.filter_cons_of_neg (by simp [hpq])]
        rw [ih (bufAdd b (pos p) (grad p)) q (by rw [bufAdd_length]; exact hq)]
        rw [bufAdd_getD_ne _ _ _ _ hpq]

theorem sum_map_set (b : List FV) :
    ∀ (q : ℕ) (v : FV), q < b.length →
    ((b.set q v).map FV.toQ).sum =
      (b.map FV.toQ).sum - FV.toQ (b.getD q FV.nan) + FV.toQ v := by
  induction b with
  | nil => intro q v hq; simp at hq
  | cons x xs ih =>
      intro q v hq
      cases q with
      | zero =>
          simp only [List.set_cons_zero, List.map_cons, List.sum_cons, List.getD_cons_zero]
          ring
      | succ n =>
          simp only [List.set_cons_succ, List.map_cons, List.sum_cons, List.getD_cons_succ]
          rw [ih n v (by simpa using hq)]
          ring

theorem bufAdd_fold_sum {α : Type} (pos : α → ℕ) (grad : α → FV) :
    ∀ (l : List α) (b : List FV),
    (∀ p ∈ l, pos p < b.length) →
    (∀ p ∈ l, FV.isFiniteb (grad p) = true) →
    (∀ v ∈ b, FV.isFiniteb v = true) →
    (∀ v ∈ l.foldl (fun b p => bufAdd b (pos p) (grad p)) b, FV.isFiniteb v = true) ∧
    ((l.foldl (fun b p => bufAdd b (pos p) (grad p)) b).map FV.toQ).sum =
      (b.map FV.toQ).sum + (l.map fun p => FV.toQ (grad p)).sum := by
  intro l
  induction l with
  | nil => intro b _ _ hb; exact ⟨hb, by simp⟩
  | cons p rest ih =>
      intro b hpos hg hb
      simp only [List.foldl_cons]
      have hq : pos p < b.length := hpos p (by simp)
      have hmem : b.getD (pos p) FV.nan ∈ b := by
        have h1 : b.getD (pos p) FV.nan = b[pos p] := by
          rw [List.getD_eq_getElem?_getD, List.getElem?_eq_getElem hq]
          rfl
        rw [h1]
        exact List.getElem_mem hq
      have hold : FV.isFiniteb (b.getD (pos p) FV.nan) = true := hb _ hmem
      have hgf : FV.isFiniteb (grad p) = true := hg p (by simp)
      obtain ⟨qo, ho⟩ := fin_exists hold
      obtain ⟨qg, hgq⟩ := fin_exists hgf
      have hb' : ∀ v ∈ bufAdd b (pos p) (grad p), FV.isFiniteb v = true := by
        intro v hv
        rcases List.mem_or_eq_of_mem_set hv with h | h
        · exact hb v h
        · subst h
          rw [ho, hgq, FV.fin_add_fin]
          rfl
      obtain ⟨hfin2, hsum2⟩ := ih (bufAdd b (pos p) (grad p))
        (fun r hr => by rw [bufAdd_length]; exact hpos r (by simp [hr]))
        (fun r hr => hg r (by simp [hr])) hb'
      refine ⟨hfin2, ?_⟩
      rw [hsum2]
      have hstep : ((bufAdd b (pos p) (grad p)).map FV.toQ).sum =
          (b.map FV.toQ).sum + FV.toQ (grad p) := by
        rw [bufAdd, sum_map_set b (pos p) _ hq, ho, hgq, FV.fin_add_fin]
        simp only [FV.toQ]
        ring
      rw [hstep]
      simp only [List.map_cons, List.sum_cons]
      ring

theorem range_flatMap_mul (a b : ℕ) :
    (List.range a).flatMap (fun i => (List.range b).map fun j => i * b + j) =
      List.range (a * b) := by
  induction a with
  | zero => simp
  | succ a ih =>
      rw [List.range_succ, List.flatMap_append, ih]
      rw [show (a + 1) * b = a * b + b by ring, List.range_add]
      simp only [List.flatMap_cons, List.flatMap_nil, List.append_nil]

theorem idx2_encode (a b : ℕ) :
    (idx2 a b).map (fun p => p.1 * b + p.2) = List.range (a * b) := by
  rw [idx2, List.map_flatMap, ← range_flatMap_mul]
  congr 1
  funext i
  rw [List.map_map]
  rfl

theorem idx3_encode (a b c : ℕ) :
    (idx3 a b c).map (fun p => p.1 * (b * c) + (p.2.1 * c + p.2.2)) =
      List.range (a * (b * c)) := by
  rw [idx3, List.map_flatMap, ← range_flatMap_mul]
  congr 1
  funext i
  rw [List.map_map, ← idx2_encode b c, List.map_map]
  rfl

theorem idx4_encode (a b c d : ℕ) :
    (idx4 a b c d).map
        (fun p => p.1 * (b * (c * d)) + (p.2.1 * (c * d) + (p.2.2.1 * d + p.2.2.2))) =
      List.range (a * (b * (c * d))) := by
  rw [idx4, List.map_flatMap, ← range_flatMap_mul]
  congr 1
  funext i
  rw [List.map_map, ← idx3_encode b c d, List.map_map]
  rfl

theorem getD_range_map (b : List FV) :
    (List.range b.length).map (fun q => b.getD q FV.nan) = b := by
  induction b with
  | nil => rfl
  | cons x xs ih =>
      have htail : ((List.range xs.length).map Nat.succ).map
            (fun q => (x :: xs).getD q FV.nan) =
          (List.range xs.length).map (fun q => xs.getD q FV.nan) := by
        rw [List.map_map]
        apply List.map_congr_left
        intro q hq
        rfl
      rw [List.length_cons, List.range_succ_eq_map, List.map_cons, htail,
        List.getD_cons_zero, ih]

theorem mem_idx2 {a b : ℕ} {p : ℕ × ℕ} (hp : p ∈ idx2 a b) : p.1 < a ∧ p.2 < b := by
  simp only [idx2, List.mem_flatMap, List.mem_map, List.mem_range] at hp
  obtain ⟨i, hi, j, hj, rfl⟩ := hp
  exact ⟨hi, hj⟩

theorem mem_idx3 {a b c : ℕ} {p : ℕ × ℕ × ℕ} (hp : p ∈ idx3 a b c) :
    p.1 < a ∧ p.2.1 < b ∧ p.2.2 < c := by
  simp only [idx3, List.mem_flatMap, List.mem_map, List.mem_range] at hp
  obtain ⟨i, hi, q, hq, rfl⟩ := hp
  exact ⟨hi, (mem_idx2 hq).1, (mem_idx2 hq).2⟩

theorem mem_idx4 {a b c d : ℕ} {p : ℕ × ℕ × ℕ × ℕ} (hp : p ∈ idx4 a b c d) :
    p.1 < a ∧ p.2.1 < b ∧ p.2.2.1 < c ∧ p.2.2.2 < d := by
  simp only [idx4, List.mem_flatMap, List.mem_map, List.mem_range] at hp
  obtain ⟨i, hi, q, hq, rfl⟩ := hp
  exact ⟨hi, (mem_idx3 hq).1, (mem_idx3 hq).2.1, (mem_idx3 hq).2.2⟩

theorem encode_bound (N H W C a y x c : ℕ) (ha : a < N) (hy : y < H) (hx : x < W)
    (hc : c < C) :
    a * (H * W * C) + y * (W * C) + x * C + c < N * (H * W * C) := by
  have h2 : y * (W * C) + x * C + c < H * (W * C) := stride_bound H W C y x c hy hx hc
  have hA : H * W * C = H * (W * C) := by ring
  calc a * (H * W * C) + y * (W * C) + x * C + c
      < a * (H * W * C) + H * (W * C) := by omega
    _ = (a + 1) * (H * W * C) := by rw [hA]; ring
    _ ≤ N * (H * W * C) := Nat.mul_le_mul_right _ (by omega)

theorem map_get_idx4 (t : Tensor4D) (hlen : t.buf.length = t.n * t.h * t.w * t.c) :
    (idx4 t.n t.h t.w t.c).map (fun p => t.get p.1 p.2.1 p.2.2.1 p.2.2.2) = t.buf := by
  have hassoc : t.n * t.h * t.w * t.c = t.n * (t.h * (t.w * t.c)) := by ring
  calc (idx4 t.n t.h t.w t.c).map (fun p => t.get p.1 p.2.1 p.2.2.1 p.2.2.2)
      = ((idx4 t.n t.h t.w t.c).map
          (fun p => p.1 * (t.h * (t.w * t.c)) +
            (p.2.1 * (t.w * t.c) + (p.2.2.1 * t.c + p.2.2.2)))).map
          (fun q => t.buf.getD q FV.nan) := by
        rw [List.map_map]
        apply List.map_congr_left
        intro p _
        simp only [Function.comp, Tensor4D.get, Tensor4D.idx, Tensor4D.sN,
          Tensor4D.sH, Tensor4D.sW]
        congr 1
        ring
    _ = (List.range (t.n * (t.h * (t.w * t.c)))).map (fun q => t.buf.getD q FV.nan) := by
        rw [idx4_encode]
    _ = (List.range t.buf.length).map (fun q => t.buf.getD q FV.nan) := by
        rw [hlen, hassoc]
    _ = t.buf := getD_range_map t.buf

-- Tensor-level scatter-add step and its reduction to the buffer level.
def flatAdd (t : Tensor4D) (q : ℕ) (v : FV) : Tensor4D := { t with buf := bufAdd t.buf q v }

theorem flatAdd_foldl_buf {α : Type} (pos : α → ℕ) (grad : α → FV) :
    ∀ (l : List α) (t : Tensor4D),
    l.foldl (fun t p => flatAdd t (pos p) (grad p)) t =
      ⟨t.n, t.h, t.w, t.c, l.foldl (fun b p => bufAdd b (pos p) (grad p)) t.buf⟩ := by
  intro l
  induction l with
  | nil => intro t; rfl
  | cons p rest ih => intro t; exact ih (flatAdd t (pos p) (grad p))

theorem bufAdd_fold_length {α : Type} (pos : α → ℕ) (grad : α → FV) :
    ∀ (l : List α) (b : List FV),
    (l.foldl (fun b p => bufAdd b (pos p) (grad p)) b).length = b.length := by
  intro l
  induction l with
  | nil => intro b; rfl
  | cons p rest ih => intro b; rw [List.foldl_cons, ih, bufAdd_length]

theorem getD_mem (b : List FV) (q : ℕ) (hq : q < b.length) : b.getD q FV.nan ∈ b := by
  have h1 : b.getD q FV.nan = b[q] := by
    rw [List.getD_eq_getElem?_getD, List.getElem?_eq_getElem hq]
    rfl
  rw [h1]
  exact List.getElem_mem hq

/-- The body of the `poolBackward` scatter loop, with the mask entry read at
the running counter. -/
def poolStep (sN sH sW : ℕ) (M : List ℤ) (dOutT : Tensor4D)
    (st : Tensor4D × ℕ) (p : ℕ × ℕ × ℕ × ℕ) : Tensor4D × ℕ :=
  match M.get? st.2 with
  | some idx =>
      let q := poolDecode sN sH sW idx
      (st.1.setZ q.1 q.2.1 q.2.2.1 q.2.2.2
        (st.1.getZ q.1 q.2.1 q.2.2.1 q.2.2.2 + dOutT.get p.1 p.2.1 p.2.2.1 p.2.2.2),
        st.2 + 1)
  | none => (st.1, st.2 + 1)

/-- The scatter applied to one known mask entry. -/
def poolApply (sN sH sW : ℕ) (dOutT : Tensor4D) (tq : Tensor4D)
    (p : ℕ × ℕ × ℕ × ℕ) (idx : ℤ) : Tensor4D :=
  let q := poolDecode sN sH sW idx
  tq.setZ q.1 q.2.1 q.2.2.1 q.2.2.2
    (tq.getZ q.1 q.2.1 q.2.2.1 q.2.2.2 + dOutT.get p.1 p.2.1 p.2.2.1 p.2.2.2)

theorem poolBackward_scatter (dOutT : Tensor4D) (c : PoolCache) (oH oW : ℕ)
    (posf : ℕ × ℕ × ℕ × ℕ → ℕ)
    (hcoH : c.outH = (oH : ℤ)) (hcoW : c.outW = (oW : ℤ))
    (hmask : c.mask = (idx4 c.input.n oH oW c.input.c).map fun p => ((posf p : ℕ) : ℤ))
    (hgood : ∀ p ∈ idx4 c.input.n oH oW c.input.c, ∃ a y x cc,
      y < c.input.h ∧ x < c.input.w ∧ cc < c.input.c ∧
      posf p = a * (c.input.h * c.input.w * c.input.c) +
        y * (c.input.w * c.input.c) + x * c.input.c + cc) :
    poolBackward (.tensor dOutT) (.pool c) =
      .ok (.tensor ⟨c.input.n, c.input.h, c.input.w, c.input.c,
        (idx4 c.input.n oH oW c.input.c).foldl
          (fun b p => bufAdd b (posf p) (dOutT.get p.1 p.2.1 p.2.2.1 p.2.2.2))
          (List.replicate (c.input.n * c.input.h * c.input.w * c.input.c) (FV.fin 0))⟩) := by
  have hcnt :
      (idx4 c.input.n oH oW c.input.c).foldl
          (poolStep c.input.sN c.input.sH c.input.sW c.mask dOutT)
          (Tensor4D.zeros c.input.n c.input.h c.input.w c.input.c, 0) =
        ((idx4 c.input.n oH oW c.input.c).foldl
          (fun tq p => poolApply c.input.sN c.input.sH c.input.sW dOutT tq p ((posf p : ℕ) : ℤ))
          (Tensor4D.zeros c.input.n c.input.h c.input.w c.input.c),
          0 + (idx4 c.input.n oH oW c.input.c).length) :=
    foldl_mask_counter c.mask (fun p => ((posf p : ℕ) : ℤ))
      (poolApply c.input.sN c.input.sH c.input.sW dOutT)
      (idx4 c.input.n oH oW c.input.c) 0
      (Tensor4D.zeros c.input.n c.input.h c.input.w c.input.c) []
      (by rw [hmask]; simp)
  have heqf : ∀ tq p, (tq.h = c.input.h ∧ tq.w = c.input.w ∧ tq.c = c.input.c) →
      p ∈ idx4 c.input.n oH oW c.input.c →
      poolApply c.input.sN c.input.sH c.input.sW dOutT tq p ((posf p : ℕ) : ℤ) =
        flatAdd tq (posf p) (dOutT.get p.1 p.2.1 p.2.2.1 p.2.2.2) := by
    intro tq p hP hp
    obtain ⟨h1, h2, h3⟩ := hP
    obtain ⟨a, y, x, cc, hy, hx, hcc, henc⟩ := hgood p hp
    rw [henc]
    have hdec : poolDecode c.input.sN c.input.sH c.input.sW
        ((a * (c.input.h * c.input.w * c.input.c) +
          y * (c.input.w * c.input.c) + x * c.input.c + cc : ℕ) : ℤ) =
        ((a : ℤ), (y : ℤ), (x : ℤ), (cc : ℤ)) := by
      simp only [Tensor4D.sN, Tensor4D.sH, Tensor4D.sW]
      exact poolDecode_encode c.input.h c.input.w c.input.c a y x cc hy hx hcc
    rw [poolApply, hdec]
    simp only
    rw [setZ_coe, getZ_coe]
    have hidx : tq.idx a y x cc =
        a * (c.input.h * c.input.w * c.input.c) +
          y * (c.input.w * c.input.c) + x * c.input.c + cc := by
      simp [Tensor4D.idx, Tensor4D.sN, Tensor4D.sH, Tensor4D.sW, h1, h2, h3]
    rw [hidx]
    rfl
  have hpair :
      (idx4 c.input.n oH oW c.input.c).foldl
          (fun tq p => poolApply c.input.sN c.input.sH c.input.sW dOutT tq p ((posf p : ℕ) : ℤ))
          (Tensor4D.zeros c.input.n c.input.h c.input.w c.input.c) =
        (idx4 c.input.n oH oW c.input.c).foldl
          (fun tq p => flatAdd tq (posf p) (dOutT.get p.1 p.2.1 p.2.2.1 p.2.2.2))
          (Tensor4D.zeros c.input.n c.input.h c.input.w c.input.c) :=
    foldl_congr_inv (fun tq => tq.h = c.input.h ∧ tq.w = c.input.w ∧ tq.c = c.input.c)
      _ _ (idx4 c.input.n oH oW c.input.c)
      (Tensor4D.zeros c.input.n c.input.h c.input.w c.input.c)
      ⟨rfl, rfl, rfl⟩
      (fun tq p hP hp => by rw [heqf tq p hP hp]; exact hP)
      heqf
  calc poolBackward (.tensor dOutT) (.pool c)
      = .ok (.tensor ((idx4 c.input.n c.outH.toNat c.outW.toNat c.input.c).foldl
          (poolStep c.input.sN c.input.sH c.input.sW c.mask dOutT)
          (Tensor4D.zeros c.input.n c.input.h c.input.w c.input.c, 0)).1) := rfl
    _ = .ok (.tensor ((idx4 c.input.n oH oW c.input.c).foldl
          (poolStep c.input.sN c.input.sH c.input.sW c.mask dOutT)
          (Tensor4D.zeros c.input.n c.input.h c.input.w c.input.c, 0)).1) := by
        rw [hcoH, hcoW, Int.toNat_ofNat, Int.toNat_ofNat]
    _ = .ok (.tensor ((idx4 c.input.n oH oW c.input.c).foldl
          (fun tq p => poolApply c.input.sN c.input.sH c.input.sW dOutT tq p ((posf p : ℕ) : ℤ))
          (Tensor4D.zeros c.input.n c.input.h c.input.w c.input.c))) :=
        congrArg (fun z => Except.ok (AV.tensor z)) (congrArg Prod.fst hcnt)
    _ = .ok (.tensor ((idx4 c.input.n oH oW c.input.c).foldl
          (fun tq p => flatAdd tq (posf p) (dOutT.get p.1 p.2.1 p.2.2.1 p.2.2.2))
          (Tensor4D.zeros c.input.n c.input.h c.input.w c.input.c))) :=
        congrArg (fun z => Except.ok (AV.tensor z)) hpair
    _ = .ok (.tensor ⟨c.input.n, c.input.h, c.input.w, c.input.c,
          (idx4 c.input.n oH oW c.input.c).foldl
            (fun b p => bufAdd b (posf p) (dOutT.get p.1 p.2.1 p.2.2.1 p.2.2.2))
            (List.replicate (c.input.n * c.input.h * c.input.w * c.input.c) (FV.fin 0))⟩) :=
        congrArg (fun z => Except.ok (AV.tensor z))
          (flatAdd_foldl_buf _ _ (idx4 c.input.n oH oW c.input.c)
            (Tensor4D.zeros c.input.n c.input.h c.input.w c.input.c))

theorem zip_self_map {α β : Type} (l : List α) (f : α → β) :
    l.zip (l.map f) = l.map fun a => (a, f a) := by
  have h := List.zip_map' id f l
  simpa using h

/-- The flat argmax index recorded by `poolForward` for one output
position. -/
def poolMaskFn (t : Tensor4D) (d : PoolData) (p : ℕ × ℕ × ℕ × ℕ) : ℤ :=
  (poolArgmax t p.1 ((p.2.1 : ℤ) * d.strideH) ((p.2.2.1 : ℤ) * d.strideW)
    d.windowH.toNat d.windowW.toNat p.2.2.2).2

/-- The output write performed by `poolForward` for one output position. -/
def poolOutFn (t : Tensor4D) (d : PoolData) (tq : Tensor4D) (p : ℕ × ℕ × ℕ × ℕ) : Tensor4D :=
  tq.set p.1 p.2.1 p.2.2.1 p.2.2.2
    (poolArgmax t p.1 ((p.2.1 : ℤ) * d.strideH) ((p.2.2.1 : ℤ) * d.strideW)
      d.windowH.toNat d.windowW.toNat p.2.2.2).1

/-- **C5.**  Pool backward routes each output gradient to exactly the input
position recorded in the forward argmax mask (decoded from the flat
stride-encoded index): the gradient tensor cell at flat index `q` is the
sum of exactly those incoming gradients whose mask entry is `q`, every
position not recorded in the mask gets zero, and (in the non-overlapping
case `wH ≤ sH`, `wW ≤ sW`) the total returned gradient equals the total
incoming gradient. -/
theorem C5_pool_backward_routing
    (t dOutT : Tensor4D) (d : PoolData)
    (wH wW sH sW oH oW : ℕ)
    (hwH : d.windowH = (wH : ℤ)) (hwW : d.windowW = (wW : ℤ))
    (hsH : d.strideH = (sH : ℤ)) (hsW : d.strideW = (sW : ℤ))
    (hoH : d.outShape.2.1 = (oH : ℤ)) (hoW : d.outShape.2.2.1 = (oW : ℤ))
    (hwH1 : 1 ≤ wH) (hwW1 : 1 ≤ wW)
    (hnoY : wH ≤ sH) (hnoX : wW ≤ sW)
    (hfitY : ∀ oy, oy < oH → oy * sH + wH ≤ t.h)
    (hfitX : ∀ ox, ox < oW → ox * sW + wW ≤ t.w)
    (hlen : t.buf.length = t.n * t.h * t.w * t.c)
    (hfin : ∀ v ∈ t.buf, FV.isFiniteb v = true)
    (hdn : dOutT.n = t.n) (hdh : dOutT.h = oH) (hdw : dOutT.w = oW) (hdc : dOutT.c = t.c)
    (hdlen : dOutT.buf.length = t.n * oH * oW * t.c)
    (hdfin : ∀ v ∈ dOutT.buf, FV.isFiniteb v = true) :
    ∃ av lres cache dX,
      poolForward (.tensor t) d = .ok (av, .pool cache, lres) ∧
      poolBackward (.tensor dOutT) (.pool cache) = .ok (.tensor dX) ∧
      dX.n = t.n ∧ dX.h = t.h ∧ dX.w = t.w ∧ dX.c = t.c ∧
      dX.buf.length = t.buf.length ∧
      (∀ q, q < t.buf.length →
        dX.buf.getD q FV.nan =
          ((((idx4 t.n oH oW t.c).zip cache.mask).filter
              (fun pm => pm.2 == (q : ℤ))).map
            (fun pm => dOutT.get pm.1.1 pm.1.2.1 pm.1.2.2.1 pm.1.2.2.2)).foldl
            (fun s v => s + v) (FV.fin 0)) ∧
      (∀ q, q < t.buf.length → ((q : ℤ) ∉ cache.mask) →
        dX.buf.getD q FV.nan = FV.fin 0) ∧
      (dX.buf.map FV.toQ).sum = (dOutT.buf.map FV.toQ).sum := by
  -- the forward pass, reduced to a plain output fold plus a mask map
  have hfwd : poolForward (.tensor t) d = .ok
      (.tensor ((idx4 t.n (d.outShape.2.1).toNat (d.outShape.2.2.1).toNat t.c).foldl
        (fun st p => (poolOutFn t d st.1 p, st.2 ++ [poolMaskFn t d p]))
        (Tensor4D.zeros t.n (d.outShape.2.1).toNat (d.outShape.2.2.1).toNat t.c,
          ([] : List ℤ))).1,
      .pool ⟨t, d.windowH, d.windowW, d.strideH, d.strideW,
        d.outShape.2.1, d.outShape.2.2.1,
        ((idx4 t.n (d.outShape.2.1).toNat (d.outShape.2.2.1).toNat t.c).foldl
          (fun st p => (poolOutFn t d st.1 p, st.2 ++ [poolMaskFn t d p]))
          (Tensor4D.zeros t.n (d.outShape.2.1).toNat (d.outShape.2.2.1).toNat t.c,
            ([] : List ℤ))).2⟩,
      .pool d) := rfl
  rw [hoH, hoW, Int.toNat_ofNat, Int.toNat_ofNat] at hfwd
  rw [foldl_pair_append (idx4 t.n oH oW t.c) (poolOutFn t d) (poolMaskFn t d)
    (Tensor4D.zeros t.n oH oW t.c) []] at hfwd
  simp only [List.nil_append] at hfwd
  -- each mask entry is the flat encoding of an in-range input position
  have hkey : ∀ p ∈ idx4 t.n oH oW t.c, ∃ y x, y < t.h ∧ x < t.w ∧
      poolMaskFn t d p = ((t.idx p.1 y x p.2.2.2 : ℕ) : ℤ) := by
    intro p hp
    obtain ⟨hp1, hp2, hp3, hp4⟩ := mem_idx4 hp
    have hbY : (p.2.1 : ℤ) * d.strideH = ((p.2.1 * sH : ℕ) : ℤ) := by
      rw [hsH]; push_cast; ring
    have hbX : (p.2.2.1 : ℤ) * d.strideW = ((p.2.2.1 * sW : ℕ) : ℤ) := by
      rw [hsW]; push_cast; ring
    have hyc : p.2.1 * sH < t.h := by
      have h1 := hfitY p.2.1 hp2
      omega
    have hxc : p.2.2.1 * sW < t.w := by
      have h1 := hfitX p.2.2.1 hp3
      omega
    have hflt : t.idx p.1 (p.2.1 * sH) (p.2.2.1 * sW) p.2.2.2 < t.buf.length := by
      have hb := encode_bound t.n t.h t.w t.c p.1 (p.2.1 * sH) (p.2.2.1 * sW) p.2.2.2
        hp1 hyc hxc hp4
      have ha : t.n * (t.h * t.w * t.c) = t.n * t.h * t.w * t.c := by ring
      rw [hlen, ← ha]
      simp only [Tensor4D.idx, Tensor4D.sN, Tensor4D.sH, Tensor4D.sW]
      exact hb
    have hv0 : FV.isFiniteb (t.getZ (p.1 : ℤ) ((p.2.1 * sH : ℕ) : ℤ)
        ((p.2.2.1 * sW : ℕ) : ℤ) (p.2.2.2 : ℤ)) = true := by
      rw [getZ_coe]
      exact hfin _ (getD_mem _ _ hflt)
    obtain ⟨wy, hwy, wx, hwx, hm⟩ := poolArgmax_lands t p.1 ((p.2.1 * sH : ℕ) : ℤ)
      ((p.2.2.1 * sW : ℕ) : ℤ) wH wW p.2.2.2 hwH1 hwW1 hv0
    refine ⟨p.2.1 * sH + wy, p.2.2.1 * sW + wx, ?_, ?_, ?_⟩
    · have h1 := hfitY p.2.1 hp2
      omega
    · have h1 := hfitX p.2.2.1 hp3
      omega
    · show (poolArgmax t p.1 ((p.2.1 : ℤ) * d.strideH) ((p.2.2.1 : ℤ) * d.strideW)
        d.windowH.toNat d.windowW.toNat p.2.2.2).2 = _
      rw [hbY, hbX, hwH, hwW, Int.toNat_ofNat, Int.toNat_ofNat, hm, ← idxZ_coe]
      push_cast
      ring_nf
  have hcast : ∀ p ∈ idx4 t.n oH oW t.c,
      poolMaskFn t d p = (((poolMaskFn t d p).toNat : ℕ) : ℤ) := by
    intro p hp
    obtain ⟨y, x, hy, hx, hm⟩ := hkey p hp
    rw [hm]
    simp
  have hposlt : ∀ p ∈ idx4 t.n oH oW t.c,
      (poolMaskFn t d p).toNat < t.n * t.h * t.w * t.c := by
    intro p hp
    obtain ⟨y, x, hy, hx, hm⟩ := hkey p hp
    obtain ⟨hp1, hp2, hp3, hp4⟩ := mem_idx4 hp
    rw [hm, Int.toNat_ofNat]
    have hb := encode_bound t.n t.h t.w t.c p.1 y x p.2.2.2 hp1 hy hx hp4
    have ha : t.n * (t.h * t.w * t.c) = t.n * t.h * t.w * t.c := by ring
    rw [← ha]
    simp only [Tensor4D.idx, Tensor4D.sN, Tensor4D.sH, Tensor4D.sW]
    exact hb
  have hgood : ∀ p ∈ idx4 t.n oH oW t.c, ∃ a y x cc,
      y < t.h ∧ x < t.w ∧ cc < t.c ∧
      (poolMaskFn t d p).toNat = a * (t.h * t.w * t.c) +
        y * (t.w * t.c) + x * t.c + cc := by
    intro p hp
    obtain ⟨y, x, hy, hx, hm⟩ := hkey p hp
    obtain ⟨hp1, hp2, hp3, hp4⟩ := mem_idx4 hp
    refine ⟨p.1, y, x, p.2.2.2, hy, hx, hp4, ?_⟩
    rw [hm, Int.toNat_ofNat]
    simp [Tensor4D.idx, Tensor4D.sN, Tensor4D.sH, Tensor4D.sW]
  have hback := poolBackward_scatter dOutT
    ⟨t, d.windowH, d.windowW, d.strideH, d.strideW, (oH : ℤ), (oW : ℤ),
      (idx4 t.n oH oW t.c).map (poolMaskFn t d)⟩
    oH oW (fun p => (poolMaskFn t d p).toNat) rfl rfl
    (List.map_congr_left hcast) hgood
  -- per-output gradients are finite members of the incoming buffer
  have hgradfin : ∀ p ∈ idx4 t.n oH oW t.c,
      FV.isFiniteb (dOutT.get p.1 p.2.1 p.2.2.1 p.2.2.2) = true := by
    intro p hp
    obtain ⟨hp1, hp2, hp3, hp4⟩ := mem_idx4 hp
    have hb := encode_bound dOutT.n dOutT.h dOutT.w dOutT.c p.1 p.2.1 p.2.2.1 p.2.2.2
      (by rw [hdn]; exact hp1) (by rw [hdh]; exact hp2)
      (by rw [hdw]; exact hp3) (by rw [hdc]; exact hp4)
    have hflt : dOutT.idx p.1 p.2.1 p.2.2.1 p.2.2.2 < dOutT.buf.length := by
      rw [hdlen]
      have hR : t.n * oH * oW * t.c = dOutT.n * (dOutT.h * dOutT.w * dOutT.c) := by
        rw [hdn, hdh, hdw, hdc]
        ring
      rw [hR]
      simp only [Tensor4D.idx, Tensor4D.sN, Tensor4D.sH, Tensor4D.sW]
      exact hb
    exact hdfin _ (getD_mem _ _ hflt)
  refine ⟨_, _, _, _, hfwd, hback, rfl, rfl, rfl, rfl, ?_, ?_, ?_, ?_⟩
  · show ((idx4 t.n oH oW t.c).foldl
        (fun b p => bufAdd b ((poolMaskFn t d p).toNat)
          (dOutT.get p.1 p.2.1 p.2.2.1 p.2.2.2))
        (List.replicate (t.n * t.h * t.w * t.c) (FV.fin 0))).length = t.buf.length
    rw [bufAdd_fold_length, List.length_replicate, hlen]
  · -- cell characterization
    intro q hq
    have hq' : q < (List.replicate (t.n * t.h * t.w * t.c) (FV.fin 0)).length := by
      rw [List.length_replicate, ← hlen]
      exact hq
    show ((idx4 t.n oH oW t.c).foldl
        (fun b p => bufAdd b ((poolMaskFn t d p).toNat)
          (dOutT.get p.1 p.2.1 p.2.2.1 p.2.2.2))
        (List.replicate (t.n * t.h * t.w * t.c) (FV.fin 0))).getD q FV.nan =
      ((((idx4 t.n oH oW t.c).zip ((idx4 t.n oH oW t.c).map (poolMaskFn t d))).filter
          (fun pm => pm.2 == (q : ℤ))).map
        (fun pm => dOutT.get pm.1.1 pm.1.2.1 pm.1.2.2.1 pm.1.2.2.2)).foldl
        (fun s v => s + v) (FV.fin 0)
    rw [bufAdd_fold_getD _ _ _ _ q hq']
    have hrep : (List.replicate (t.n * t.h * t.w * t.c) (FV.fin 0)).getD q FV.nan =
        FV.fin 0 := by
      rw [List.getD_eq_getElem?_getD,
        List.getElem?_replicate_of_lt (by rw [← hlen]; exact hq)]
      rfl
    rw [hrep, zip_self_map, List.filter_map, List.map_map]
    have hfeq : (idx4 t.n oH oW t.c).filter
        (fun p => ((poolMaskFn t d p).toNat == q)) =
        (idx4 t.n oH oW t.c).filter
          ((fun pm => pm.2 == (q : ℤ)) ∘ (fun p => (p, poolMaskFn t d p))) := by
      apply List.filter_congr
      intro p hp
      show ((poolMaskFn t d p).toNat == q) = (poolMaskFn t d p == (q : ℤ))
      rw [hcast p hp, Int.toNat_ofNat]
      by_cases h : (poolMaskFn t d p).toNat = q
      · rw [h]
        simp
      · have h1 : ((((poolMaskFn t d p).toNat : ℕ) : ℤ) == (q : ℤ)) = false :=
          beq_eq_false_iff_ne.mpr (fun hc => h (Int.natCast_inj.mp hc))
        have h2 : ((poolMaskFn t d p).toNat == q) = false :=
          beq_eq_false_iff_ne.mpr h
        rw [h1, h2]
    rw [hfeq]
    rfl
  · -- off-mask positions receive exactly zero
    intro q hq hnot
    show ((idx4 t.n oH oW t.c).foldl
        (fun b p => bufAdd b ((poolMaskFn t d p).toNat)
          (dOutT.get p.1 p.2.1 p.2.2.1 p.2.2.2))
        (List.replicate (t.n * t.h * t.w * t.c) (FV.fin 0))).getD q FV.nan = FV.fin 0
    have hq' : q < (List.replicate (t.n * t.h * t.w * t.c) (FV.fin 0)).length := by
      rw [List.length_replicate, ← hlen]
      exact hq
    rw [bufAdd_fold_getD _ _ _ _ q hq']
    have hrep : (List.replicate (t.n * t.h * t.w * t.c) (FV.fin 0)).getD q FV.nan =
        FV.fin 0 := by
      rw [List.getD_eq_getElem?_getD,
        List.getElem?_replicate_of_lt (by rw [← hlen]; exact hq)]
      rfl
    have hnil : (idx4 t.n oH oW t.c).filter
        (fun p => ((poolMaskFn t d p).toNat == q)) = [] := by
      rw [List.filter_eq_nil_iff]
      intro p hp hbeq
      apply hnot
      have h1 : (poolMaskFn t d p).toNat = q := eq_of_beq hbeq
      have h2 : poolMaskFn t d p = (q : ℤ) := by
        rw [hcast p hp, h1]
      rw [← h2]
      exact List.mem_map_of_mem (poolMaskFn t d) hp
    rw [hnil, hrep]
    rfl
  · -- total gradient is preserved
    obtain ⟨_, hsum⟩ := bufAdd_fold_sum (fun p => (poolMaskFn t d p).toNat)
      (fun p => dOutT.get p.1 p.2.1 p.2.2.1 p.2.2.2)
      (idx4 t.n oH oW t.c)
      (List.replicate (t.n * t.h * t.w * t.c) (FV.fin 0))
      (fun p hp => by rw [List.length_replicate]; exact hposlt p hp)
      hgradfin
      (fun v hv => by
        rw [List.eq_of_mem_replicate hv]
        rfl)
    show (((idx4 t.n oH oW t.c).foldl
        (fun b p => bufAdd b ((poolMaskFn t d p).toNat)
          (dOutT.get p.1 p.2.1 p.2.2.1 p.2.2.2))
        (List.replicate (t.n * t.h * t.w * t.c) (FV.fin 0))).map FV.toQ).sum =
      (dOutT.buf.map FV.toQ).sum
    rw [hsum]
    have hrepsum : ((List.replicate (t.n * t.h * t.w * t.c) (FV.fin 0)).map FV.toQ).sum
        = 0 := by
      rw [List.map_replicate, List.sum_replicate]
      show (t.n * t.h * t.w * t.c) • FV.toQ (FV.fin 0) = 0
      simp [FV.toQ]
    rw [hrepsum]
    have hmg : ((idx4 t.n oH oW t.c).map
        fun p => FV.toQ (dOutT.get p.1 p.2.1 p.2.2.1 p.2.2.2)) =
        ((idx4 t.n oH oW t.c).map
          (fun p => dOutT.get p.1 p.2.1 p.2.2.1 p.2.2.2)).map FV.toQ := by
      rw [List.map_map]
      rfl
    have houts : idx4 t.n oH oW t.c = idx4 dOutT.n dOutT.h dOutT.w dOutT.c := by
      rw [hdn, hdh, hdw, hdc]
    have hdlen2 : dOutT.buf.length = dOutT.n * dOutT.h * dOutT.w * dOutT.c := by
      rw [hdn, hdh, hdw, hdc]
      exact hdlen
    rw [hmg, houts, map_get_idx4 dOutT hdlen2]
    ring

/-- 1×2×2×1 input tensor for the C5 run. -/
def poolT5 : Tensor4D := ⟨1, 2, 2, 1, [FV.fin 1, FV.fin 2, FV.fin 3, FV.fin 4]⟩

/-- 2×2 pool, stride 2, declared 1×1×1×1 output. -/
def poolD5 : PoolData := ⟨2, 2, 2, 2, 1, (1, 1, 1, 1)⟩

/-- Incoming 1×1×1×1 output gradient for the C5 run. -/
def poolG5 : Tensor4D := ⟨1, 1, 1, 1, [FV.fin 5]⟩

theorem C5_pool_backward_routing_witness :
    (∀ oy, oy < 1 → oy * 2 + 2 ≤ poolT5.h) ∧
    ∃ av lres cache dX,
      poolForward (.tensor poolT5) poolD5 = .ok (av, .pool cache, lres) ∧
      poolBackward (.tensor poolG5) (.pool cache) = .ok (.tensor dX) ∧
      dX.n = poolT5.n ∧ dX.h = poolT5.h ∧ dX.w = poolT5.w ∧ dX.c = poolT5.c ∧
      dX.buf.length = poolT5.buf.length ∧
      (∀ q, q < poolT5.buf.length →
        dX.buf.getD q FV.nan =
          ((((idx4 poolT5.n 1 1 poolT5.c).zip cache.mask).filter
              (fun pm => pm.2 == (q : ℤ))).map
            (fun pm => poolG5.get pm.1.1 pm.1.2.1 pm.1.2.2.1 pm.1.2.2.2)).foldl
            (fun s v => s + v) (FV.fin 0)) ∧
      (∀ q, q < poolT5.buf.length → ((q : ℤ) ∉ cache.mask) →
        dX.buf.getD q FV.nan = FV.fin 0) ∧
      (dX.buf.map FV.toQ).sum = (poolG5.buf.map FV.toQ).sum :=
  ⟨by decide,
   C5_pool_backward_routing poolT5 poolG5 poolD5 2 2 2 2 1 1
     (by decide) (by decide) (by decide) (by decide) (by decide) (by decide)
     (by decide) (by decide) (by decide) (by decide)
     (by decide) (by decide) (by decide) (by decide)
     (by decide) (by decide) (by decide) (by decide)
     (by decide) (by decide)⟩

-- `Float32Array.set` with a source of exactly the target length copies it.
theorem vset_exact (dst src : Vec) (h : dst.length = src.length) :
    vset dst src = .ok src := by
  unfold vset
  rw [if_neg (by omega)]
  rw [← h, List.drop_length, List.append_nil]

theorem buildLayers_length (tf : TransFuns) (rand : ℕ → ℚ) :
    ∀ (configs : List LayerConfig) (prev : Option Layer) (k : ℕ) (layers : List Layer),
    buildLayers tf rand prev k configs = .ok layers → layers.length = configs.length := by
  intro configs
  induction configs with
  | nil =>
      intro prev k layers hb
      rw [buildLayers] at hb
      cases hb
      rfl
  | cons cfg rest ih =>
      intro prev k layers hb
      rw [buildLayers] at hb
      simp only [bind, Except.bind] at hb
      cases h1 : buildOne tf rand prev k cfg with
      | error e => rw [h1] at hb; exact Except.noConfusion hb
      | ok pr =>
          rw [h1] at hb
          obtain ⟨l, k2⟩ := pr
          dsimp only at hb
          cases h2 : buildLayers tf rand (some l) k2 rest with
          | error e => rw [h2] at hb; exact Except.noConfusion hb
          | ok tail =>
              rw [h2] at hb
              cases hb
              simp [ih (some l) k2 tail h2]

/-- Configurations whose Conv2D entries avoid `same` padding and have
non-negative kernel dimensions. -/
def noSameCfgb : LayerConfig → Bool
  | .conv2d _ kernel _ padding _ =>
      decide (padding ≠ some Padding.same) && decide (0 ≤ kernel.1) && decide (0 ≤ kernel.2)
  | _ => true

/-- Constructor tag of a built layer. -/
def skelTag : Layer → ℕ
  | .input _ => 0
  | .dense _ => 1
  | .conv2d _ => 2
  | .pool _ => 3
  | .flatten _ => 4

/-- Two layers agree on everything the construction of the *next* layer
can observe: constructor, inferred output shape, flat output size. -/
def skelRel (p2 p : Layer) : Prop :=
  skelTag p2 = skelTag p ∧ inferOutputShape p2 = inferOutputShape p ∧
    getOutputSizeOf p2 = getOutputSizeOf p

/-- Lifted to the optional previous layer. -/
def optRel : Option Layer → Option Layer → Prop
  | none, none => True
  | some p2, some p => skelRel p2 p
  | _, _ => False

theorem buildDenseLayer_eq (tf : TransFuns) (rand : ℕ → ℚ) (k : ℕ)
    (size : ℤ) (act : Option ActivationName) (inputSize : ℤ) :
    buildDenseLayer tf rand k size act inputSize =
      (.dense ⟨inputSize, size,
        (List.range (inputSize * size).toNat).map fun i =>
          (FV.fin (rand (k + i)) - FV.fin (mkRat 1 2)) *
            tf.sqrtF (qdiv 2 (Rat.ofInt (inputSize + size))),
        (List.range size.toNat).map fun i =>
          (FV.fin (rand (k + (inputSize * size).toNat + i)) - FV.fin (mkRat 1 2)) *
            FV.fin (mkRat 1 10),
        act⟩,
        k + (inputSize * size).toNat + size.toNat) := rfl

theorem buildPoolLayer_eq (size : ℤ × ℤ) (stride : Option (ℤ × ℤ)) (N H W C : ℤ) :
    buildPoolLayer size stride (N, H, W, C) =
      .pool ⟨size.1, size.2,
        (stride.map Prod.fst).getD size.1, (stride.map Prod.snd).getD size.2, C,
        (N, (H - size.1).fdiv ((stride.map Prod.fst).getD size.1) + 1,
          (W - size.2).fdiv ((stride.map Prod.snd).getD size.2) + 1, C)⟩ := rfl

theorem buildConv2DLayer_eq (rand : ℕ → ℚ) (k : ℕ) (filters kh kw : ℤ)
    (stride : Option (ℤ × ℤ)) (padding : Option Padding) (act : Option ActivationName)
    (N H W C : ℤ) (hpad : ¬(padding = some Padding.same)) :
    buildConv2DLayer rand k filters (kh, kw) stride padding act (N, H, W, C) =
      (.conv2d ⟨⟨kh.toNat, kw.toNat, C.toNat, filters.toNat,
          (List.range (kh.toNat * kw.toNat * C.toNat * filters.toNat)).map fun i =>
            (FV.fin (rand (k + i)) - FV.fin (mkRat 1 2)) * FV.fin (mkRat 1 10)⟩,
        List.replicate filters.toNat (FV.fin 0),
        (stride.map Prod.fst).getD 1, (stride.map Prod.snd).getD 1,
        0, 0, 0, 0,
        (N, (H + 0 + 0 - kh).fdiv ((stride.map Prod.fst).getD 1) + 1,
          (W + 0 + 0 - kw).fdiv ((stride.map Prod.snd).getD 1) + 1, filters),
        act⟩,
        k + kh.toNat * kw.toNat * C.toNat * filters.toNat) := by
  rw [buildConv2DLayer]
  simp only [if_neg hpad]

theorem buildOne_conv_arm (tf : TransFuns) (rand : ℕ → ℚ) (k : ℕ)
    (filters : ℤ) (kernel : ℤ × ℤ) (stride : Option (ℤ × ℤ))
    (padding : Option Padding) (act : Option ActivationName) (p : Layer)
    (h1 : skelTag p ≠ 1) (h4 : skelTag p ≠ 4) :
    buildOne tf rand (some p) k (.conv2d filters kernel stride padding act) =
      .ok (buildConv2DLayer rand k filters kernel stride padding act
        (inferOutputShape p)) := by
  cases p with
  | input s => rfl
  | conv2d d => rfl
  | pool d => rfl
  | dense d => exact absurd rfl h1
  | flatten s => exact absurd rfl h4

theorem rebuild_one (tf : TransFuns) (rand rand2 : ℕ → ℚ)
    (cfg : LayerConfig) (prevO prevR : Option Layer) (kO kR : ℕ) (l : Layer) (k2 : ℕ)
    (h1 : buildOne tf rand prevO kO cfg = .ok (l, k2))
    (hns : noSameCfgb cfg = true)
    (hrel : optRel prevR prevO) :
    ∃ l2 kR2,
      buildOne tf rand2 prevR kR (rebuildConfig (serializeLayer l)) = .ok (l2, kR2) ∧
      injectOne l2 (serializeLayer l) = .ok l ∧ skelRel l2 l := by
  cases cfg with
  | input shape =>
      rw [buildOne] at h1
      cases h1
      exact ⟨.input shape, kR, rfl, rfl, ⟨rfl, rfl, rfl⟩⟩
  | dense size act =>
      cases prevO with
      | none => exact absurd h1 (by simp [buildOne, getOutputSizeOfOpt, bind, Except.bind])
      | some pO =>
          cases prevR with
          | none => exact hrel.elim
          | some pR =>
              obtain ⟨htag, hshape, hsize⟩ := hrel
              rw [buildOne] at h1
              simp only [getOutputSizeOfOpt, bind, Except.bind] at h1
              rw [buildDenseLayer_eq] at h1
              cases h1
              refine ⟨(buildDenseLayer tf rand2 kR size act (getOutputSizeOf pO)).1,
                (buildDenseLayer tf rand2 kR size act (getOutputSizeOf pO)).2, ?_, ?_, ?_⟩
              · show buildOne tf rand2 (some pR) kR (.dense size act) = _
                rw [buildOne]
                simp only [getOutputSizeOfOpt, bind, Except.bind]
                rw [hsize]
              · rw [buildDenseLayer_eq]
                show injectOne (.dense _) (.dense _ _ _ _ _) = _
                rw [injectOne]
                simp only [bind, Except.bind]
                rw [vset_exact _ _ (by simp), vset_exact _ _ (by simp)]
              · exact ⟨rfl, rfl, rfl⟩
  | flatten =>
      cases prevO with
      | none => exact absurd h1 (by simp [buildOne, getOutputSizeOfOpt, bind, Except.bind])
      | some pO =>
          cases prevR with
          | none => exact hrel.elim
          | some pR =>
              obtain ⟨htag, hshape, hsize⟩ := hrel
              rw [buildOne] at h1
              simp only [getOutputSizeOfOpt, bind, Except.bind] at h1
              cases h1
              refine ⟨.flatten (getOutputSizeOf pO), kR, ?_, rfl, ⟨rfl, rfl, rfl⟩⟩
              show buildOne tf rand2 (some pR) kR .flatten = _
              rw [buildOne]
              simp only [getOutputSizeOfOpt, bind, Except.bind]
              rw [hsize]
  | pool size stride =>
      cases prevO with
      | none => exact absurd h1 (by simp [buildOne, inferOutputShapeOpt, bind, Except.bind])
      | some pO =>
          cases prevR with
          | none => exact hrel.elim
          | some pR =>
              obtain ⟨htag, hshape, hsize⟩ := hrel
              rcases hsh : inferOutputShape pO with ⟨N, H, W, C⟩
              rw [buildOne] at h1
              simp only [inferOutputShapeOpt, bind, Except.bind] at h1
              rw [hsh, buildPoolLayer_eq] at h1
              cases h1
              refine ⟨.pool ⟨size.1, size.2, (stride.map Prod.fst).getD size.1,
                  (stride.map Prod.snd).getD size.2, C,
                  (N, (H - size.1).fdiv ((stride.map Prod.fst).getD size.1) + 1,
                    (W - size.2).fdiv ((stride.map Prod.snd).getD size.2) + 1, C)⟩,
                kR, ?_, rfl, ⟨rfl, rfl, rfl⟩⟩
              show buildOne tf rand2 (some pR) kR
                (.pool (size.1, size.2)
                  (some ((stride.map Prod.fst).getD size.1,
                    (stride.map Prod.snd).getD size.2))) = _
              rw [buildOne]
              simp only [inferOutputShapeOpt, bind, Except.bind]
              rw [hshape, hsh]
              rfl
  | conv2d filters kernel stride padding act =>
      simp only [noSameCfgb, Bool.and_eq_true, decide_eq_true_eq] at hns
      obtain ⟨⟨hpad, hkh⟩, hkw⟩ := hns
      obtain ⟨kh, kw⟩ := kernel
      cases prevO with
      | none => exact absurd h1 (by simp [buildOne])
      | some pO =>
          cases prevR with
          | none => exact hrel.elim
          | some pR =>
              obtain ⟨htag, hshape, hsize⟩ := hrel
              have htagO1 : skelTag pO ≠ 1 ∧ skelTag pO ≠ 4 := by
                cases pO with
                | dense d => exact absurd h1 (by simp [buildOne])
                | flatten s => exact absurd h1 (by simp [buildOne])
                | input s => exact ⟨by simp [skelTag], by simp [skelTag]⟩
                | conv2d d => exact ⟨by simp [skelTag], by simp [skelTag]⟩
                | pool d => exact ⟨by simp [skelTag], by simp [skelTag]⟩
              rw [buildOne_conv_arm tf rand kO filters (kh, kw) stride padding act pO
                htagO1.1 htagO1.2] at h1
              rcases hsh : inferOutputShape pO with ⟨N, H, W, C⟩
              rw [hsh, buildConv2DLayer_eq rand kO filters kh kw stride padding act
                N H W C hpad] at h1
              cases h1
              refine ⟨.conv2d ⟨⟨kh.toNat, kw.toNat, C.toNat, filters.toNat,
                  (List.range (kh.toNat * kw.toNat * C.toNat * filters.toNat)).map fun i =>
                    (FV.fin (rand2 (kR + i)) - FV.fin (mkRat 1 2)) * FV.fin (mkRat 1 10)⟩,
                List.replicate filters.toNat (FV.fin 0),
                (stride.map Prod.fst).getD 1, (stride.map Prod.snd).getD 1,
                0, 0, 0, 0,
                (N, (H + 0 + 0 - kh).fdiv ((stride.map Prod.fst).getD 1) + 1,
                  (W + 0 + 0 - kw).fdiv ((stride.map Prod.snd).getD 1) + 1, filters),
                act⟩,
                kR + kh.toNat * kw.toNat * C.toNat * filters.toNat, ?_, ?_, ?_⟩
              · show buildOne tf rand2 (some pR) kR
                  (.conv2d filters ((kh.toNat : ℤ), (kw.toNat : ℤ))
                    (some ((stride.map Prod.fst).getD 1, (stride.map Prod.snd).getD 1))
                    (some .valid) act) = _
                rw [buildOne_conv_arm tf rand2 kR filters ((kh.toNat : ℤ), (kw.toNat : ℤ))
                  (some ((stride.map Prod.fst).getD 1, (stride.map Prod.snd).getD 1))
                  (some .valid) act pR
                  (htag ▸ htagO1.1) (htag ▸ htagO1.2)]
                rw [hshape, hsh]
                rw [Int.toNat_of_nonneg hkh, Int.toNat_of_nonneg hkw]
                rw [buildConv2DLayer_eq rand2 kR filters kh kw _ (some .valid) act
                  N H W C (by simp)]
                rfl
              · show injectOne (.conv2d _) (.conv2d _ _ _ _ _ _ _ _ _ _ _) = _
                rw [injectOne]
                simp only [bind, Except.bind]
                rw [Tensor4D.mkChecked, if_neg (by simp)]
                rw [vset_exact _ _ (by simp)]
              · exact ⟨rfl, rfl, rfl⟩

theorem roundtrip_build (tf : TransFuns) (rand rand2 : ℕ → ℚ) :
    ∀ (configs : List LayerConfig) (prevO prevR : Option Layer) (kO kR : ℕ)
      (layers : List Layer),
    buildLayers tf rand prevO kO configs = .ok layers →
    (∀ cfg ∈ configs, noSameCfgb cfg = true) →
    optRel prevR prevO →
    ∃ built,
      buildLayers tf rand2 prevR kR (layers.map fun l => rebuildConfig (serializeLayer l)) =
        .ok built ∧
      injectAll built (layers.map serializeLayer) = .ok layers := by
  intro configs
  induction configs with
  | nil =>
      intro prevO prevR kO kR layers hb hns hrel
      rw [buildLayers] at hb
      cases hb
      exact ⟨[], rfl, rfl⟩
  | cons cfg rest ih =>
      intro prevO prevR kO kR layers hb hns hrel
      rw [buildLayers] at hb
      simp only [bind, Except.bind] at hb
      cases h1 : buildOne tf rand prevO kO cfg with
      | error e => rw [h1] at hb; exact Except.noConfusion hb
      | ok pr =>
          rw [h1] at hb
          obtain ⟨l, k2⟩ := pr
          dsimp only at hb
          cases h2 : buildLayers tf rand (some l) k2 rest with
          | error e => rw [h2] at hb; exact Except.noConfusion hb
          | ok tail =>
              rw [h2] at hb
              cases hb
              -- one-step facts for the head layer, by cases on the config
              have hstep : ∃ l2 kR2,
                  buildOne tf rand2 prevR kR (rebuildConfig (serializeLayer l)) =
                    .ok (l2, kR2) ∧
                  injectOne l2 (serializeLayer l) = .ok l ∧ skelRel l2 l :=
                rebuild_one tf rand rand2 cfg prevO prevR kO kR l k2 h1
                  (hns cfg (by simp)) hrel
              obtain ⟨l2, kR2, hb2, hinj1, hrel1⟩ := hstep
              obtain ⟨builtTail, hbt, hinjt⟩ :=
                ih (some l) (some l2) k2 kR2 tail h2
                  (fun c hc => hns c (by simp [hc])) hrel1
              refine ⟨l2 :: builtTail, ?_, ?_⟩
              · rw [List.map_cons, buildLayers]
                simp only [bind, Except.bind]
                rw [hb2]
                dsimp only
                rw [hbt]
              · rw [List.map_cons, injectAll]
                simp only [bind, Except.bind]
                rw [hinj1]
                dsimp only
                rw [hinjt]

-- `guess` reads only the layer list and the debug flag of the network.
theorem guess_eq_of (tf : TransFuns) (net2 net : NeuralNetwork)
    (hl : net2.layers = net.layers) (hd : net2.debug = net.debug) (input : AV) :
    guess tf net2 input = guess tf net input := by
  unfold guess forwardPass
  rw [hl, hd]

/-- **C1** (amended).  For a network built from configurations whose Conv2D
entries avoid `same` padding (and have non-negative kernel sizes), with the
debug flag left at its default, `fromCheckpoint (checkpoint net)` succeeds and
restores exactly the original layer list (all weights, biases and kernels
included), so `guess` is bit-identical on every input.  The claim's
same-padding inclusion fails: see the counterexample. -/
theorem C1_checkpoint_roundtrip (tf : TransFuns) (rand rand2 : ℕ → ℚ)
    (configs : List LayerConfig) (opts : NeuralNetworkOptions) (net : NeuralNetwork)
    (hns : ∀ cfg ∈ configs, noSameCfgb cfg = true)
    (hdbg : opts.debug = none)
    (hbuild : mkNN tf rand configs opts = .ok net) :
    ∃ net2, fromCheckpoint tf rand2 (checkpoint net) = .ok net2 ∧
      net2.layers = net.layers ∧ net2.learningRate = net.learningRate ∧
      ∀ input, guess tf net2 input = guess tf net input := by
  rw [mkNN] at hbuild
  split_ifs at hbuild with hlen2
  · simp only [bind, Except.bind] at hbuild
    cases hb : buildLayers tf rand none 0 configs with
    | error e => rw [hb] at hbuild; exact Except.noConfusion hbuild
    | ok layers =>
        rw [hb] at hbuild
        dsimp only at hbuild
        cases hbuild
        obtain ⟨built, hbuilt, hinject⟩ :=
          roundtrip_build tf rand rand2 configs none none 0 0 layers hb hns trivial
        have hlenL : layers.length = configs.length :=
          buildLayers_length tf rand configs none 0 layers hb
        refine ⟨⟨layers, opts.learningRate.getD (mkRat 1 10), .mse, false⟩, ?_, rfl, rfl, ?_⟩
        · rw [fromCheckpoint]
          simp only [bind, Except.bind, checkpoint]
          rw [mkNN]
          rw [List.map_map]
          rw [if_neg (by simp [List.length_map, hlenL]; omega)]
          simp only [bind, Except.bind]
          have hbuilt2 : buildLayers tf rand2 none 0
              (layers.map (rebuildConfig ∘ serializeLayer)) = .ok built := hbuilt
          rw [hbuilt2]
          dsimp only
          rw [hinject]
          rfl
        · intro input
          exact guess_eq_of tf
            ⟨layers, opts.learningRate.getD (mkRat 1 10), .mse, false⟩
            ⟨layers, opts.learningRate.getD (mkRat 1 10), opts.loss.getD .mse,
              opts.debug.getD false⟩
            rfl (by show false = opts.debug.getD false; rw [hdbg]; rfl) input

/-- Valid-padding conv configuration for the round-trip run. -/
def cfgC1v : List LayerConfig :=
  [.input (1, 2, 2, 1), .conv2d 1 (2, 2) none none none]

/-- The network built from `cfgC1v`. -/
def netC1v : NeuralNetwork :=
  (mkNN TFq rand0 cfgC1v ⟨none, none, none⟩).toOption.getD ⟨[], 0, .mse, false⟩

theorem C1_checkpoint_roundtrip_witness :
    (∀ cfg ∈ cfgC1v, noSameCfgb cfg = true) ∧
    ∃ net2, fromCheckpoint TFq rand0 (checkpoint netC1v) = .ok net2 ∧
      net2.layers = netC1v.layers ∧ net2.learningRate = netC1v.learningRate ∧
      ∀ input, guess TFq net2 input = guess TFq netC1v input :=
  ⟨by decide, C1_checkpoint_roundtrip TFq rand0 rand0 cfgC1v ⟨none, none, none⟩ netC1v
    (by decide) rfl (by decide)⟩

/-- Same-padding conv configuration: the round-trip loses the padding. -/
def cfgC1s : List LayerConfig :=
  [.input (1, 2, 2, 1), .conv2d 1 (2, 2) none (some .same) none]

/-- All-ones 1×2×2×1 input. -/
def inC1 : AV := .tensor ⟨1, 2, 2, 1, [FV.fin 1, FV.fin 1, FV.fin 1, FV.fin 1]⟩

/-- The network built from `cfgC1s`. -/
def netC1s : NeuralNetwork :=
  (mkNN TFq rand0 cfgC1s ⟨none, none, none⟩).toOption.getD ⟨[], 0, .mse, false⟩

/-- Its reconstruction through `fromCheckpoint ∘ checkpoint`. -/
def netC1r : NeuralNetwork :=
  (fromCheckpoint TFq rand0 (checkpoint netC1s)).toOption.getD ⟨[], 0, .mse, false⟩

theorem C1_counterexample :
    mkNN TFq rand0 cfgC1s ⟨none, none, none⟩ = .ok netC1s ∧
    fromCheckpoint TFq rand0 (checkpoint netC1s) = .ok netC1r ∧
    guess TFq netC1s inC1 = .ok (.tensor ⟨1, 2, 2, 1,
      [FV.fin (mkRat (-1) 5), FV.fin (mkRat (-1) 10),
       FV.fin (mkRat (-1) 10), FV.fin (mkRat (-1) 20)]⟩) ∧
    guess TFq netC1r inC1 = .ok (.tensor ⟨1, 1, 1, 1, [FV.fin (mkRat (-1) 5)]⟩) ∧
    guess TFq netC1s inC1 ≠ guess TFq netC1r inC1 :=
  ⟨by decide, by decide, by decide, by decide, by decide⟩
